import Mathlib

/-!
Verification development for the `vmware_vm_inventory` dynamic inventory
plugin (`src/plugins/inventory/vmware_vm_inventory.py`).

The Python code is shallowly embedded:
  * Python runtime values that the plugin manipulates are the inductive
    type `PyVal`; a value is JSON-serializable exactly when `serializable`
    holds of it (this models the `json.dumps(vobj)` probe).
  * Attribute access (`getattr`) on a backend object may return a value or
    raise an exception; the plugin itself assumes attribute reads can raise
    (it catches `AttributeError`/`IndexError` in `_get_object_prop`,
    bare `Exception` and `vim.fault.NoPermission` in
    `_process_object_types`), so an object's attribute slots are modelled
    as `String × (PyExc ⊕ PyVal)`: `Sum.inl e` is a read that raises `e`,
    `Sum.inr v` a read that yields `v`.
  * Python `dict`s are association lists with insertion-order semantics:
    assignment to a fresh key appends, assignment to an existing key
    replaces in place (`assocSet`).
  * Attribute enumeration (`dir`) of a non-object value (list, dict,
    method, primitive) yields only callables and dunder names, all of
    which the source skips; it is modelled as the empty enumeration.
-/

namespace VMwareInv

/-- Python exception classes distinguished by the plugin's handlers. -/
inductive PyExc where
  | attributeError
  | indexError
  | noPermission
  | otherError
deriving DecidableEq, Repr

/-- Python runtime values as seen by the plugin: JSON primitives, lists,
dicts, callables, and backend objects with named attribute slots.  An
attribute slot `Sum.inl e` models a `getattr` that raises `e`;
`Sum.inr v` models a successful read. -/
inductive PyVal where
  | pnone
  | pbool (b : Bool)
  | pint (n : Int)
  | pstr (s : String)
  | plist (vs : List PyVal)
  | pdict (kvs : List (String × PyVal))
  | pfunc
  | pobject (attrs : List (String × (PyExc ⊕ PyVal)))
deriving Repr

mutual

/-- `json.dumps` succeeds: the value is built from JSON primitives,
lists and dicts of serializable values only. -/
def serializable : PyVal → Bool
  | .pnone => true
  | .pbool _ => true
  | .pint _ => true
  | .pstr _ => true
  | .plist vs => serializableList vs
  | .pdict kvs => serializableKVs kvs
  | .pfunc => false
  | .pobject _ => false

/-- All values of a list are serializable. -/
def serializableList : List PyVal → Bool
  | [] => true
  | v :: vs => serializable v && serializableList vs

/-- All values of a dict are serializable. -/
def serializableKVs : List (String × PyVal) → Bool
  | [] => true
  | (_, v) :: kvs => serializable v && serializableKVs kvs

end

/-- `callable(v)` in Python, restricted to the values we model. -/
def isCallable : PyVal → Bool
  | .pfunc => true
  | _ => false

/-- First-match association-list lookup (Python `dict` lookup /
attribute slot lookup). -/
def assocFind {α : Type} : List (String × α) → String → Option α
  | [], _ => none
  | (k0, v) :: rest, k => if k0 = k then some v else assocFind rest k

/-- Python `dict` assignment `d[k] = v`: replaces in place when the key
exists, appends at the end otherwise. -/
def assocSet {α : Type} (k : String) (v : α) : List (String × α) → List (String × α)
  | [] => [(k, v)]
  | (k0, v0) :: rest => if k0 = k then (k, v) :: rest else (k0, v0) :: assocSet k v rest

/-- The non-dunder attribute names a Python 3 `dict` exposes: its bound
methods.  `getattr` on a dict succeeds for these (returning a callable)
and raises `AttributeError` for anything else. -/
def dictMethodNames : List String :=
  ["clear", "copy", "fromkeys", "get", "items", "keys", "pop", "popitem",
   "setdefault", "update", "values"]

/-- `getattr(vobj, name)`: object attribute slots may yield a value or
raise; on a dict, access succeeds for the dict's method names (yielding
a bound method, a callable) and raises `AttributeError` otherwise — this
case is reachable because the flattener turns non-serializable
intermediates into dicts; on the remaining value forms access raises
`AttributeError` (a bound method exposes no non-dunder attributes, and
no plugin code path reads attributes of the other primitives). -/
def pyGetattr : PyVal → String → Except PyExc PyVal
  | .pobject attrs, name =>
      match assocFind attrs name with
      | some (Sum.inr v) => .ok v
      | some (Sum.inl e) => .error e
      | none => .error .attributeError
  | .pdict _, name =>
      if dictMethodNames.contains name then .ok .pfunc
      else .error .attributeError
  | _, _ => .error .attributeError

/-- The names `dir(vobj)` yields, in slot order.  For non-objects the
enumeration contains only callables/dunder names, which the source
skips, so it is modelled empty. -/
def dirNames : PyVal → List String
  | .pobject attrs => attrs.map Prod.fst
  | _ => []

/-- The deny-list of known-problematic property names
(`('Array', 'disabledMethod', 'declaredAlarmState')`). -/
def denyList : List String := ["Array", "disabledMethod", "declaredAlarmState"]

/-- Python `x.startswith('_')`. -/
def startsUnderscore (s : String) : Bool :=
  match s.data with
  | [] => false
  | c :: _ => c == '_'

/-- The two list comprehensions filtering `dir` output: drop names
starting with `'_'`, then drop the deny-listed names. -/
def filterProps (names : List String) : List String :=
  (names.filter (fun x => !(startsUnderscore x))).filter (fun x => !(denyList.contains x))

/-- Python string comparison: lexicographic by code point. -/
def charListLe : List Char → List Char → Bool
  | [], _ => true
  | _ :: _, [] => false
  | a :: as, b :: bs =>
    if a.toNat < b.toNat then true
    else if b.toNat < a.toNat then false
    else charListLe as bs

/-- `a <= b` on Python strings. -/
def strLeB (a b : String) : Bool := charListLe a.data b.data

/-- Python `str.lower()` (ASCII case folding). -/
def strToLower (s : String) : String := ⟨s.data.map Char.toLower⟩

/-- Insert into a lexicographically sorted list of strings. -/
def insertStr (s : String) : List String → List String
  | [] => [s]
  | t :: ts => if strLeB s t then s :: t :: ts else t :: insertStr s ts

/-- `sorted(properties)`: insertion sort by the string order. -/
def sortStrs : List String → List String
  | [] => []
  | s :: ss => insertStr s (sortStrs ss)

mutual

/-- `BaseVMwareInventory._process_object_types(vobj, level=0)`: if
`json.dumps` succeeds return `vobj` unchanged; otherwise enumerate the
sorted, filtered attribute names and build the dict `rdata` via
`potLoop`. -/
def processObjectTypes (vobj : PyVal) (level : Nat) : Except PyExc PyVal :=
  if serializable vobj then .ok vobj
  else
    match potLoop (sortStrs (filterProps (dirNames vobj))) vobj level [] with
    | .ok rdata => .ok (.pdict rdata)
    | .error e => .error e
termination_by (2 - level, 1, 0)

/-- The `for prop in properties:` loop body of `_process_object_types`:
attempt the read (skip on any exception), skip callables, and when
`level + 1 <= 2` recurse, swallowing `vim.fault.NoPermission` and
assigning `rdata[prop.lower()]` otherwise. -/
def potLoop (names : List String) (vobj : PyVal) (level : Nat)
    (rdata : List (String × PyVal)) : Except PyExc (List (String × PyVal)) :=
  match names with
  | [] => .ok rdata
  | prop :: rest =>
    match pyGetattr vobj prop with
    | .error _ => potLoop rest vobj level rdata
    | .ok propToSerialize =>
      if isCallable propToSerialize then potLoop rest vobj level rdata
      else if _h : level + 1 ≤ 2 then
        match processObjectTypes propToSerialize (level + 1) with
        | .error .noPermission => potLoop rest vobj level rdata
        | .error e => .error e
        | .ok r => potLoop rest vobj level (assocSet (strToLower prop) r rdata)
      else potLoop rest vobj level rdata
termination_by (2 - level, 0, names.length)
decreasing_by
  all_goals simp_wf
  all_goals first
    | (apply Prod.Lex.right; omega)
    | (apply Prod.Lex.left; omega)

end

/-- The walk of `BaseVMwareInventory._get_object_prop`: for each attribute
name, `getattr` inside `try/except (AttributeError, IndexError)` returning
`None` on those two exception classes, then
`result = _process_object_types(result)` outside the handler. -/
def getObjectPropGo : PyVal → List String → Except PyExc PyVal
  | result, [] => .ok result
  | result, attrName :: rest =>
    match pyGetattr result attrName with
    | .error .attributeError => .ok .pnone
    | .error .indexError => .ok .pnone
    | .error e => .error e
    | .ok r =>
      match processObjectTypes r 0 with
      | .error e => .error e
      | .ok r2 => getObjectPropGo r2 rest

/-- `BaseVMwareInventory._get_object_prop(vm, attributes)`. -/
def getObjectProp (vm : PyVal) (attributes : List String) : Except PyExc PyVal :=
  getObjectPropGo vm attributes

/-! ## The inventory model (the host-side `self.inventory` collaborator) -/

/-- The subset of the external inventory object's state the plugin
mutates through `add_group` / `add_host` / `add_child` /
`set_variable`. -/
structure Inventory where
  groups : List String := []
  hosts : List String := []
  children : List (String × String) := []
  hostVariables : List (String × List (String × PyVal)) := []

/-- Append if absent. -/
def addUnique (x : String) (xs : List String) : List String :=
  if xs.contains x then xs else xs ++ [x]

/-- `self.inventory.add_group(g)`. -/
def addGroup (inv : Inventory) (g : String) : Inventory :=
  { inv with groups := addUnique g inv.groups }

/-- `self.inventory.add_host(h)`. -/
def addHost (inv : Inventory) (h : String) : Inventory :=
  { inv with hosts := addUnique h inv.hosts }

/-- `self.inventory.add_child(parent, child)`. -/
def addChild (inv : Inventory) (parent child : String) : Inventory :=
  { inv with children :=
      if inv.children.contains (parent, child) then inv.children
      else inv.children ++ [(parent, child)] }

/-- Update one host's variable dict. -/
def setHostVar : List (String × List (String × PyVal)) → String → String → PyVal →
    List (String × List (String × PyVal))
  | [], h, k, v => [(h, [(k, v)])]
  | (h0, hvs) :: rest, h, k, v =>
    if h0 = h then (h0, assocSet k v hvs) :: rest else (h0, hvs) :: setHostVar rest h k v

/-- `self.inventory.set_variable(host, key, value)`. -/
def setVariable (inv : Inventory) (host key : String) (v : PyVal) : Inventory :=
  { inv with hostVariables := setHostVar inv.hostVariables host key v }

/-- `self.inventory.get_host(h).vars`. -/
def varsOf (inv : Inventory) (host : String) : List (String × PyVal) :=
  (assocFind inv.hostVariables host).getD []

/-! ## The cache snapshot (`cacheable_results`) -/

/-- A snapshot entry value: the reserved meta entry
`{'hostvars': {...}}` or a group entry `{'hosts': [...]}`. -/
inductive SnapVal where
  | meta (hostvars : List (String × List (String × PyVal)))
  | group (hosts : List String)
deriving Repr

/-- The flat snapshot mapping (`cacheable_results` / `source_data`). -/
abbrev Snapshot := List (String × SnapVal)

/-- `k in cacheable_results`. -/
def hasKeySnap (s : Snapshot) (k : String) : Bool :=
  (assocFind s k).isSome

/-- `cacheable_results[g] = {'hosts': []}` for a fresh key `g`. -/
def insertGroupSnap (s : Snapshot) (g : String) : Snapshot :=
  s ++ [(g, SnapVal.group [])]

/-- `d.pop(k)`'s removal part. -/
def eraseKey (k : String) : Snapshot → Snapshot
  | [] => []
  | (k0, v) :: rest => if k0 = k then rest else (k0, v) :: eraseKey k rest

/-- `source_data[group].get('hosts', [])`. -/
def hostsOf : SnapVal → List String
  | .group hs => hs
  | .meta _ => []

/-- Run errors: `AnsibleError` aborts, propagated Python exceptions, and
`KeyError` from indexing a dict at a missing key. -/
inductive RunError where
  | ansible (msg : String)
  | py (e : PyExc)
  | keyError
deriving DecidableEq, Repr

/-- `cacheable_results[key]['hosts'].append(host)`: `KeyError` when the
key is absent or when the entry has no `'hosts'` slot (the meta
entry). -/
def appendHost : Snapshot → String → String → Except RunError Snapshot
  | [], _, _ => .error .keyError
  | (k, v) :: rest, key, host =>
    if k = key then
      match v with
      | .group hs => .ok ((k, SnapVal.group (hs ++ [host])) :: rest)
      | .meta _ => .error .keyError
    else
      match appendHost rest key host with
      | .error e => .error e
      | .ok rest2 => .ok ((k, v) :: rest2)

/-- `cacheable_results['_meta']['hostvars'][host] = hvars`. -/
def metaSetVar : Snapshot → String → List (String × PyVal) → Except RunError Snapshot
  | [], _, _ => .error .keyError
  | (k, v) :: rest, host, hvars =>
    if k = "_meta" then
      match v with
      | .meta hv => .ok ((k, SnapVal.meta (assocSet host hvars hv)) :: rest)
      | .group _ => .error .keyError
    else
      match metaSetVar rest host hvars with
      | .error e => .error e
      | .ok rest2 => .ok ((k, v) :: rest2)

/-- The final `for host in hostvars:` copy of each processed host's
resolved variables into the snapshot's meta section. -/
def metaFill : Snapshot → List (String × List (String × PyVal)) → Except RunError Snapshot
  | results, [] => .ok results
  | results, (host, hvars) :: rest =>
    match metaSetVar results host hvars with
    | .error e => .error e
    | .ok results2 => metaFill results2 rest

/-! ## Configuration, backend and filter-spec construction -/

/-- The `no_object_failure` option. -/
inductive Policy where
  | silent
  | warn
  | error
deriving DecidableEq, Repr

/-- The five filter-name lists plus the unresolved-name policy (an unset
option and an empty list are both falsy in the source, so both are the
empty list here). -/
structure FilterConfig where
  datacenters : List String := []
  clusters : List String := []
  folders : List String := []
  esxi_hostsystems : List String := []
  resource_pools : List String := []
  no_object_failure : Policy := .silent

/-- The SDK's `VM.FilterSpec`: one optional reference set per category
(`hosts` and `resource_pools` are the dedicated dimensions the SDK
provides for the host-system and resource-pool categories). -/
structure VMFilterSpec where
  datacenters : Option (List String) := none
  clusters : Option (List String) := none
  folders : Option (List String) := none
  hosts : Option (List String) := none
  resource_pools : Option (List String) := none
deriving DecidableEq, Repr

/-- `config.guestId` may be absent. -/
structure VMConfig where
  uuid : String
  guestId : Option String := none

/-- One `cust_value` entry of `vm_obj.customValue`. -/
structure CustomFieldValue where
  key : Int
  value : PyVal

/-- One field definition from
`self.pyv.content.customFieldsManager.field`. -/
structure CustomFieldDef where
  key : Int
  name : String

/-- A resolved virtual-machine object: the typed pieces the enumeration
loop reads directly, plus `raw`, the object graph
`_get_object_prop` walks for dotted-path properties. -/
structure VMObj where
  moid : String
  name : String
  config : Option VMConfig
  ipAddress : Option String := none
  powerState : String := "poweredOn"
  customValue : List CustomFieldValue := []
  raw : PyVal := .pobject []

/-- A tag object (`tag_svc.get(tag)`). -/
structure TagObj where
  id : String
  name : String

/-- The backend API surface the plugin queries: per-category name
lookups returning matching object references, VM enumeration, and the
tagging service. -/
structure Backend where
  datacenterList : String → List String
  clusterList : String → List String
  folderList : String → List String
  hostList : String → List String
  resourcePoolList : String → List String
  vmList : VMFilterSpec → List VMObj
  tagIds : List String := []
  tagGet : String → TagObj := fun t => { id := t, name := t }
  attachedTags : String → List String := fun _ => []

/-- `InventoryModule._handle_error(message)`: silent does nothing, warn
emits a diagnostic (returned as `some message`), error raises
`AnsibleError(message)`. -/
def handleError (no_object_failure : Policy) (message : String) :
    Except String (Option String) :=
  match no_object_failure with
  | .silent => .ok none
  | .warn => .ok (some message)
  | .error => .error message

/-- One category block of `_get_vm_filter_spec`: for each configured
name, list the matching objects; take the first match's reference, or
invoke the unresolved-name policy with a message naming the category
and name.  Returns the collected references and emitted warnings. -/
def processCategory (lookup : String → List String) (pre : String) (policy : Policy) :
    List String → Except String (List String × List String)
  | [] => .ok ([], [])
  | name :: rest =>
    match lookup name with
    | r :: _ =>
      match processCategory lookup pre policy rest with
      | .error m => .error m
      | .ok (refs, ws) => .ok (r :: refs, ws)
    | [] =>
      match handleError policy (pre ++ " " ++ name) with
      | .error m => .error m
      | .ok w =>
        match processCategory lookup pre policy rest with
        | .error m => .error m
        | .ok (refs, ws) => .ok (refs, w.toList ++ ws)

/-- A whole `if names:` category block: when the option is unset or
empty the filter field is left untouched (`none`); otherwise the block
runs and the field is assigned the collected reference set. -/
def catStep (names : List String) (lookup : String → List String) (pre : String)
    (policy : Policy) : Except String (Option (List String) × List String) :=
  if names.isEmpty then .ok (none, [])
  else
    match processCategory lookup pre policy names with
    | .error m => .error m
    | .ok (refs, ws) => .ok (some refs, ws)

/-- `InventoryModule._get_vm_filter_spec`.  The datacenter, cluster and
folder blocks assign their own fields; the host-system block
(source line 496) and the resource-pool block (source line 508) assign
`vm_filter_spec.folders`, exactly as the source does. -/
def getVMFilterSpec (cfg : FilterConfig) (be : Backend) :
    Except String (VMFilterSpec × List String) :=
  match catStep cfg.datacenters be.datacenterList "Unable to find datacenter" cfg.no_object_failure with
  | .error m => .error m
  | .ok (dcRefs, w1) =>
    match catStep cfg.clusters be.clusterList "Unable to find cluster" cfg.no_object_failure with
    | .error m => .error m
    | .ok (clRefs, w2) =>
      match catStep cfg.folders be.folderList "Unable to find folder" cfg.no_object_failure with
      | .error m => .error m
      | .ok (fRefs, w3) =>
        match catStep cfg.esxi_hostsystems be.hostList "Unable to find esxi hostsystem" cfg.no_object_failure with
        | .error m => .error m
        | .ok (hRefs, w4) =>
          match catStep cfg.resource_pools be.resourcePoolList "Unable to find resource pool" cfg.no_object_failure with
          | .error m => .error m
          | .ok (rpRefs, w5) =>
            let spec : VMFilterSpec := {}
            let spec := match dcRefs with
              | some refs => { spec with datacenters := some refs }
              | none => spec
            let spec := match clRefs with
              | some refs => { spec with clusters := some refs }
              | none => spec
            let spec := match fRefs with
              | some refs => { spec with folders := some refs }
              | none => spec
            let spec := match hRefs with
              | some refs => { spec with folders := some refs }
              | none => spec
            let spec := match rpRefs with
              | some refs => { spec with folders := some refs }
              | none => spec
            .ok (spec, w1 ++ w2 ++ w3 ++ w4 ++ w5)

/-! ## Host property population -/

/-- The `customValue` expansion of `_populate_host_properties`: for each
custom field value, `[y.name for y in field_mgr if y.key == cust_value.key][0]`
raises `IndexError` when no field definition matches the key. -/
def cvLoop (field_mgr : List CustomFieldDef) (current_host : String) :
    List CustomFieldValue → Inventory → Except PyExc Inventory
  | [], inv => .ok inv
  | cv :: rest, inv =>
    match field_mgr.filter (fun y => y.key == cv.key) with
    | [] => .error .indexError
    | d :: _ => cvLoop field_mgr current_host rest (setVariable inv current_host d.name cv.value)

/-- `InventoryModule._populate_host_properties(vm_obj, current_host)`:
each configured property either expands custom values or resolves a
dotted path through `_get_object_prop`. -/
def populateHostProperties :
    List String → List CustomFieldDef → VMObj → String → Inventory → Except PyExc Inventory
  | [], _, _, _, inv => .ok inv
  | vm_prop :: rest, field_mgr, vm_obj, current_host, inv =>
    if vm_prop = "customValue" then
      match cvLoop field_mgr current_host vm_obj.customValue inv with
      | .error e => .error e
      | .ok inv2 => populateHostProperties rest field_mgr vm_obj current_host inv2
    else
      match getObjectProp vm_obj.raw (vm_prop.splitOn ".") with
      | .error e => .error e
      | .ok vm_value =>
        populateHostProperties rest field_mgr vm_obj current_host
          (setVariable inv current_host vm_prop vm_value)

/-! ## Cache replay -/

/-- `BaseInventoryPlugin._populate_host_vars([host], hvars, group)`
(external collaborator): registers the host under the group with its
stored variables. -/
def populateHostVars (inv : Inventory) (host : String) (hvars : List (String × PyVal))
    (group : String) : Inventory :=
  setVarsList host (addChild (addHost inv host) group host) hvars
where
  setVarsList (host : String) : Inventory → List (String × PyVal) → Inventory
    | inv, [] => inv
    | inv, (k, v) :: rest => setVarsList host (setVariable inv host k v) rest

/-- The inner `for host in hosts:` loop of `_populate_from_cache`. -/
def cacheHostLoop (hostvars : List (String × List (String × PyVal))) (group : String) :
    Inventory → List String → Inventory
  | inv, [] => inv
  | inv, host :: rest =>
    cacheHostLoop hostvars group
      (populateHostVars inv host ((assocFind hostvars host).getD []) group) rest

/-- The `for group in source_data:` loop of `_populate_from_cache`. -/
def cacheGroupLoop (hostvars : List (String × List (String × PyVal))) :
    Inventory → Snapshot → Inventory
  | inv, [] => inv
  | inv, (group, gval) :: rest =>
    if group = "all" then cacheGroupLoop hostvars inv rest
    else
      cacheGroupLoop hostvars
        (addChild (cacheHostLoop hostvars group (addGroup inv group) (hostsOf gval)) "all" group)
        rest

/-- `InventoryModule._populate_from_cache(source_data)`:
`source_data.pop('_meta', {})` removes the meta entry from the snapshot
(in-place mutation, made explicit by returning the popped snapshot),
then every remaining non-`'all'` group is replayed. -/
def populateFromCache (inv : Inventory) (source_data : Snapshot) : Inventory × Snapshot :=
  let hostvars := match assocFind source_data "_meta" with
    | some (SnapVal.meta hv) => hv
    | some (SnapVal.group _) => []
    | none => []
  let sd := eraseKey "_meta" source_data
  (cacheGroupLoop hostvars inv sd, sd)

/-! ## Live enumeration -/

/-- Run options consumed by the live branch. -/
structure RunOptions where
  filt : FilterConfig := {}
  with_tags : Bool := false
  properties : List String := []

/-- The mutable state of one live enumeration pass: the inventory, the
snapshot being built, and the keys of the `hostvars` seen-dict. -/
structure LoopState where
  inv : Inventory
  results : Snapshot
  seen : List String

/-- The tag pre-pass (`for tag in tags:`): build the id-to-name lookup
and pre-create one group per tag name not already present. -/
def preTags (tagGet : String → TagObj) :
    List String → Snapshot → Inventory → List (String × String) →
    Snapshot × Inventory × List (String × String)
  | [], results, inv, tagsInfo => (results, inv, tagsInfo)
  | t :: ts, results, inv, tagsInfo =>
    let tagObj := tagGet t
    let tagsInfo := assocSet tagObj.id tagObj.name tagsInfo
    if hasKeySnap results tagObj.name then preTags tagGet ts results inv tagsInfo
    else preTags tagGet ts (insertGroupSnap results tagObj.name) (addGroup inv tagObj.name) tagsInfo

/-- The `for tag_id in attached_tags:` loop: `tags_info[tag_id]` raises
`KeyError` for an unknown id; otherwise the host joins the tag's group
in the live model and the snapshot. -/
def tagLoop (tagsInfo : List (String × String)) (current_host : String) :
    List String → Inventory → Snapshot → Except RunError (Inventory × Snapshot)
  | [], inv, results => .ok (inv, results)
  | tag_id :: rest, inv, results =>
    match assocFind tagsInfo tag_id with
    | none => .error .keyError
    | some tname =>
      let inv := addChild inv tname current_host
      match appendHost results tname current_host with
      | .error e => .error e
      | .ok results2 => tagLoop tagsInfo current_host rest inv results2

/-- The power-state block: create the group on first sight, then append
the host to it in the snapshot and the live model. -/
def powerBlock (vm_power current_host : String) (inv : Inventory) (results : Snapshot) :
    Except RunError (Inventory × Snapshot) :=
  let inv2 := if hasKeySnap results vm_power then inv else addGroup inv vm_power
  let results2 :=
    if hasKeySnap results vm_power then results else insertGroupSnap results vm_power
  match appendHost results2 vm_power current_host with
  | .error e => .error e
  | .ok results3 => .ok (addChild inv2 vm_power current_host, results3)

/-- The guest-id block: the creation guard additionally requires a
truthy `vm_guest_id`, but the following
`cacheable_results[vm_guest_id]['hosts'].append(current_host)` runs
unconditionally, so an absent (or empty) guest id indexes the snapshot
at a key that was never created: `KeyError`. -/
def guestBlock (vm_guest_id : Option String) (current_host : String) (inv : Inventory)
    (results : Snapshot) : Except RunError (Inventory × Snapshot) :=
  let inv2 := match vm_guest_id with
    | some gid => if gid ≠ "" && !(hasKeySnap results gid) then addGroup inv gid else inv
    | none => inv
  let results2 := match vm_guest_id with
    | some gid =>
      if gid ≠ "" && !(hasKeySnap results gid) then insertGroupSnap results gid else results
    | none => results
  match vm_guest_id with
  | none => .error .keyError
  | some gid =>
    match appendHost results2 gid current_host with
    | .error e => .error e
    | .ok results3 => .ok (addChild inv2 gid current_host, results3)

/-- The part of the loop body guarded by
`if current_host not in hostvars:`: mark the key seen, register the
host, set its connection address, extract properties, then run the
tag, power-state and guest-id blocks. -/
def processNewVM (opts : RunOptions) (field_mgr : List CustomFieldDef) (be : Backend)
    (tagsInfo : List (String × String)) (st : LoopState) (o : VMObj) (config : VMConfig) :
    Except RunError LoopState :=
  let current_host := o.name ++ "_" ++ config.uuid
  let seen := st.seen ++ [current_host]
  let inv := addHost st.inv current_host
  let inv := match o.ipAddress with
    | some host_ip =>
      if host_ip ≠ "" then setVariable inv current_host "ansible_host" (.pstr host_ip)
      else inv
    | none => inv
  match populateHostProperties opts.properties field_mgr o current_host inv with
  | .error e => .error (.py e)
  | .ok inv =>
    match (if opts.with_tags then
             tagLoop tagsInfo current_host (be.attachedTags o.moid) inv st.results
           else .ok (inv, st.results)) with
    | .error e => .error e
    | .ok (inv, results) =>
      match powerBlock o.powerState current_host inv results with
      | .error e => .error e
      | .ok (inv, results) =>
        match guestBlock config.guestId current_host inv results with
        | .error e => .error e
        | .ok (inv, results) => .ok { inv := inv, results := results, seen := seen }

/-- The body of `for o in objects:`: skip orphaned VMs, compute the host
key, and process it at most once. -/
def processVM (opts : RunOptions) (field_mgr : List CustomFieldDef) (be : Backend)
    (tagsInfo : List (String × String)) (st : LoopState) (o : VMObj) :
    Except RunError LoopState :=
  match o.config with
  | none => .ok st
  | some config =>
    if st.seen.contains (o.name ++ "_" ++ config.uuid) then .ok st
    else processNewVM opts field_mgr be tagsInfo st o config

/-- The enumeration loop over the VM references; an exception raised by
a body aborts the loop (the state reached before the failing object is
reported alongside the error). -/
def vmLoop (opts : RunOptions) (field_mgr : List CustomFieldDef) (be : Backend)
    (tagsInfo : List (String × String)) :
    List VMObj → LoopState → LoopState × Option RunError
  | [], st => (st, none)
  | o :: os, st =>
    match processVM opts field_mgr be tagsInfo st o with
    | .error e => (st, some e)
    | .ok st2 => vmLoop opts field_mgr be tagsInfo os st2

/-- The live branch of `_populate_from_source`: build the filter spec
(aborting on a fatal unresolved-name error before any VM is listed),
optionally pre-create tag groups, run the enumeration loop, then copy
every processed host's resolved variables under `'_meta'`/`'hostvars'`.
The returned inventory is the live model at completion or at the abort
point. -/
def populateLive (opts : RunOptions) (field_mgr : List CustomFieldDef) (be : Backend)
    (inv0 : Inventory) : Inventory × Except RunError Snapshot :=
  match getVMFilterSpec opts.filt be with
  | .error m => (inv0, .error (.ansible m))
  | .ok (vm_filter_spec, _warnings) =>
    let objects := be.vmList vm_filter_spec
    let results0 : Snapshot := [("_meta", SnapVal.meta [])]
    let (results1, inv1, tagsInfo) :=
      if opts.with_tags then preTags be.tagGet be.tagIds results0 inv0 []
      else (results0, inv0, [])
    match vmLoop opts field_mgr be tagsInfo objects { inv := inv1, results := results1, seen := [] } with
    | (st, some e) => (st.inv, .error e)
    | (st, none) =>
      match metaFill st.results (st.seen.map (fun h => (h, varsOf st.inv h))) with
      | .error e => (st.inv, .error e)
      | .ok results2 => (st.inv, .ok results2)

/-- `InventoryModule._populate_from_source(source_data, using_current_cache)`:
replay the cached snapshot and return it (as mutated by the pop), or
perform the live enumeration. -/
def populateFromSource (opts : RunOptions) (field_mgr : List CustomFieldDef) (be : Backend)
    (inv : Inventory) (source_data : Snapshot) (using_current_cache : Bool) :
    Inventory × Except RunError Snapshot :=
  if using_current_cache then
    let (inv2, sd) := populateFromCache inv source_data
    (inv2, .ok sd)
  else
    populateLive opts field_mgr be inv

/-! ## Helper lemmas: association lists, sorting, serializability -/

theorem assocFind_mem {α : Type} {l : List (String × α)} {k : String} {a : α}
    (h : assocFind l k = some a) : (k, a) ∈ l := by
  induction l with
  | nil => simp [assocFind] at h
  | cons kv rest ih =>
    obtain ⟨k0, v⟩ := kv
    by_cases hk : k0 = k
    · subst hk
      simp [assocFind] at h
      subst h
      exact List.mem_cons_self _ _
    · simp [assocFind, hk] at h
      exact List.mem_cons_of_mem _ (ih h)

theorem assocFind_isSome_of_mem {α : Type} {l : List (String × α)} {k : String}
    (h : k ∈ l.map Prod.fst) : ∃ a, assocFind l k = some a := by
  induction l with
  | nil => simp at h
  | cons kv rest ih =>
    obtain ⟨k0, v⟩ := kv
    by_cases hk : k0 = k
    · exact ⟨v, by simp [assocFind, hk]⟩
    · simp only [List.map_cons, List.mem_cons] at h
      rcases h with h | h
      · exact absurd h.symm hk
      · obtain ⟨a, ha⟩ := ih h
        exact ⟨a, by simp [assocFind, hk, ha]⟩

theorem assocSet_not_mem {α : Type} {l : List (String × α)} {k : String} (v : α)
    (h : k ∉ l.map Prod.fst) : assocSet k v l = l ++ [(k, v)] := by
  induction l with
  | nil => rfl
  | cons kv rest ih =>
    obtain ⟨k0, v0⟩ := kv
    simp only [List.map_cons, List.mem_cons, not_or] at h
    have hk : ¬ k0 = k := fun he => h.1 he.symm
    simp [assocSet, hk, ih h.2]

theorem mem_insertStr {a s : String} {l : List String} :
    a ∈ insertStr s l ↔ a = s ∨ a ∈ l := by
  induction l with
  | nil => simp [insertStr]
  | cons t ts ih =>
    by_cases hle : strLeB s t = true
    · simp [insertStr, hle]
    · simp [insertStr, hle, ih]
      tauto

theorem mem_sortStrs {a : String} {l : List String} :
    a ∈ sortStrs l ↔ a ∈ l := by
  induction l with
  | nil => simp [sortStrs]
  | cons s ss ih => simp [sortStrs, mem_insertStr, ih]

theorem serializableKVs_assocSet {l : List (String × PyVal)} {k : String} {v : PyVal}
    (hv : serializable v = true) (hl : serializableKVs l = true) :
    serializableKVs (assocSet k v l) = true := by
  induction l with
  | nil => simp [assocSet, serializableKVs, hv]
  | cons kv rest ih =>
    obtain ⟨k0, v0⟩ := kv
    rw [serializableKVs] at hl
    simp at hl
    by_cases hk : k0 = k
    · simp [assocSet, hk, serializableKVs, hv, hl.2]
    · simp [assocSet, hk, serializableKVs, hl.1, ih hl.2]

/-! ## Flattener lemmas -/

/-- At recursion depth 2 the `level + 1 <= 2` gate is closed, so the
loop assigns nothing. -/
theorem potLoop_depth2 (names : List String) (vobj : PyVal) (level : Nat)
    (rdata : List (String × PyVal)) (hl : 2 ≤ level) :
    potLoop names vobj level rdata = .ok rdata := by
  induction names with
  | nil => rw [potLoop]
  | cons n rest ih =>
    rw [potLoop]
    have hgate : ¬(level + 1 ≤ 2) := by omega
    cases hg : pyGetattr vobj n with
    | error e => simpa [hg] using ih
    | ok p =>
      by_cases hc : isCallable p = true
      · simpa [hg, hc] using ih
      · simpa [hg, hc, hgate] using ih

/-- The loop never raises and only appends serializable values, provided
recursive flattening (when allowed by the depth gate) never raises and
returns serializable values. -/
theorem potLoop_ok_ser (names : List String) (vobj : PyVal) (level : Nat)
    (rdata : List (String × PyVal))
    (hrec : ∀ p, level + 1 ≤ 2 →
      ∃ r, processObjectTypes p (level + 1) = .ok r ∧ serializable r = true)
    (hrd : serializableKVs rdata = true) :
    ∃ rd, potLoop names vobj level rdata = .ok rd ∧ serializableKVs rd = true := by
  induction names generalizing rdata with
  | nil => exact ⟨rdata, by rw [potLoop], hrd⟩
  | cons n rest ih =>
    rw [potLoop]
    cases hg : pyGetattr vobj n with
    | error e => simpa [hg] using ih rdata hrd
    | ok p =>
      by_cases hc : isCallable p = true
      · simpa [hg, hc] using ih rdata hrd
      · by_cases hgate : level + 1 ≤ 2
        · obtain ⟨r, hr, hser⟩ := hrec p hgate
          have := ih (assocSet (strToLower n) r rdata) (serializableKVs_assocSet hser hrd)
          simpa [hg, hc, hgate, hr] using this
        · simpa [hg, hc, hgate] using ih rdata hrd

/-- `_process_object_types` never raises and always returns a
JSON-serializable value, at every recursion level. -/
theorem pot_ok_ser (vobj : PyVal) (level : Nat) :
    ∃ r, processObjectTypes vobj level = .ok r ∧ serializable r = true := by
  suffices h : ∀ n level, 2 - level ≤ n → ∀ vobj : PyVal,
      ∃ r, processObjectTypes vobj level = .ok r ∧ serializable r = true from
    h (2 - level) level le_rfl vobj
  intro n
  induction n with
  | zero =>
    intro level hn vobj
    rw [processObjectTypes]
    by_cases hs : serializable vobj = true
    · exact ⟨vobj, by simp [hs], hs⟩
    · have h2 : potLoop (sortStrs (filterProps (dirNames vobj))) vobj level [] = .ok [] :=
        potLoop_depth2 _ _ _ _ (by omega)
      refine ⟨.pdict [], ?_, rfl⟩
      simp [hs, h2]
  | succ m ih =>
    intro level hn vobj
    rw [processObjectTypes]
    by_cases hs : serializable vobj = true
    · exact ⟨vobj, by simp [hs], hs⟩
    · have hrec : ∀ p, level + 1 ≤ 2 →
          ∃ r, processObjectTypes p (level + 1) = .ok r ∧ serializable r = true := by
        intro p hgate
        exact ih (level + 1) (by omega) p
      obtain ⟨rd, hrd, hser⟩ :=
        potLoop_ok_ser (sortStrs (filterProps (dirNames vobj))) vobj level [] hrec rfl
      exact ⟨.pdict rd, by simp [hs, hrd], hser⟩

/-- A non-serializable value always flattens to a dict. -/
theorem pot_nonser_dict (vobj : PyVal) (level : Nat) (hs : serializable vobj = false) :
    ∃ rd, processObjectTypes vobj level = .ok (.pdict rd) ∧ serializableKVs rd = true := by
  obtain ⟨r, hr, hser⟩ := pot_ok_ser vobj level
  rw [processObjectTypes] at hr
  simp [hs] at hr
  cases hloop : potLoop (sortStrs (filterProps (dirNames vobj))) vobj level [] with
  | error e => simp [hloop] at hr
  | ok rd =>
    simp [hloop] at hr
    refine ⟨rd, ?_, ?_⟩
    · rw [processObjectTypes]
      simp [hs, hloop]
    · rw [← hr] at hser
      exact hser

/-- Every attribute slot reads successfully and yields a non-callable
value. -/
def allReadableData (attrs : List (String × (PyExc ⊕ PyVal))) : Bool :=
  attrs.all (fun nv => match nv.2 with
    | Sum.inr v => !isCallable v
    | Sum.inl _ => false)

theorem pyGetattr_benign {attrs : List (String × (PyExc ⊕ PyVal))}
    (h1 : allReadableData attrs = true) {n : String} (hn : n ∈ attrs.map Prod.fst) :
    ∃ v, pyGetattr (.pobject attrs) n = .ok v ∧ isCallable v = false := by
  obtain ⟨a, ha⟩ := assocFind_isSome_of_mem hn
  have hmem := assocFind_mem ha
  have h1' := List.all_eq_true.mp h1 _ hmem
  cases a with
  | inl e => simp at h1'
  | inr v =>
    refine ⟨v, by simp [pyGetattr, ha], ?_⟩
    simpa using h1'

/-- When every listed name reads to a non-callable value and the
lower-cased keys are distinct, the loop appends exactly one entry per
name, in order. -/
theorem potLoop_keys (names : List String) (vobj : PyVal) (level : Nat)
    (rdata : List (String × PyVal)) (hgate : level + 1 ≤ 2)
    (hben : ∀ n ∈ names, ∃ v, pyGetattr vobj n = .ok v ∧ isCallable v = false)
    (hnd : (rdata.map Prod.fst ++ names.map strToLower).Nodup) :
    ∃ rd, potLoop names vobj level rdata = .ok rd ∧
      rd.map Prod.fst = rdata.map Prod.fst ++ names.map strToLower := by
  induction names generalizing rdata with
  | nil => exact ⟨rdata, by rw [potLoop], by simp⟩
  | cons n rest ih =>
    obtain ⟨v, hg, hc⟩ := hben n (List.mem_cons_self _ _)
    obtain ⟨r, hr, -⟩ := pot_ok_ser v (level + 1)
    have hnotmem : strToLower n ∉ rdata.map Prod.fst := by
      rw [List.nodup_append] at hnd
      intro hmem
      exact hnd.2.2 hmem (by simp)
    have hset := assocSet_not_mem (l := rdata) (k := strToLower n) r hnotmem
    have hnd2 : ((rdata ++ [(strToLower n, r)]).map Prod.fst ++ rest.map strToLower).Nodup := by
      simpa using hnd
    have hben2 : ∀ m ∈ rest, ∃ w, pyGetattr vobj m = .ok w ∧ isCallable w = false :=
      fun m hm => hben m (List.mem_cons_of_mem _ hm)
    obtain ⟨rd, hrd, hkeys⟩ := ih (rdata ++ [(strToLower n, r)]) hben2 hnd2
    refine ⟨rd, ?_, ?_⟩
    · rw [potLoop]
      simp only [hg, hc, hgate, dite_true, Bool.false_eq_true, if_false, hr, hset]
      exact hrd
    · rw [hkeys]
      simp

/-! ## Claim C4 -/

/-- C4: for every input value the Property Flattener returns without
raising and its result is JSON-serializable; an already-serializable
value is returned unchanged; recursion is attempted only at depth 0 and
1 from the root call, so a non-serializable value reached at depth 2 is
represented as an empty mapping; and a non-serializable object is
returned as a mapping whose keys are the sorted, lower-cased
non-private attribute names (stated for attribute sets whose reads all
succeed with non-callable, non-deny-listed values and whose lower-cased
names are distinct). -/
theorem process_object_types_contract (vobj : PyVal) (level : Nat)
    (attrs : List (String × (PyExc ⊕ PyVal)))
    (h1 : allReadableData attrs = true)
    (h2 : attrs.all (fun nv => !(denyList.contains nv.1)) = true)
    (h3 : ((sortStrs ((attrs.map Prod.fst).filter (fun x => !(startsUnderscore x)))).map
      strToLower).Nodup) :
    (∃ r, processObjectTypes vobj level = .ok r ∧ serializable r = true)
    ∧ (serializable vobj = true → processObjectTypes vobj level = .ok vobj)
    ∧ (serializable vobj = false → 2 ≤ level →
        processObjectTypes vobj level = .ok (.pdict []))
    ∧ (∃ rd, processObjectTypes (.pobject attrs) 0 = .ok (.pdict rd) ∧
        rd.map Prod.fst =
          (sortStrs ((attrs.map Prod.fst).filter (fun x => !(startsUnderscore x)))).map
            strToLower) := by
  refine ⟨pot_ok_ser vobj level, ?_, ?_, ?_⟩
  · intro hs
    rw [processObjectTypes]
    simp [hs]
  · intro hs hl
    rw [processObjectTypes]
    simp [hs, potLoop_depth2 _ _ _ _ hl]
  · have hdeny : filterProps (attrs.map Prod.fst) =
        (attrs.map Prod.fst).filter (fun x => !(startsUnderscore x)) := by
      unfold filterProps
      apply List.filter_eq_self.mpr
      intro a ha
      obtain ⟨nv, hnv, rfl⟩ := List.mem_map.mp (List.mem_of_mem_filter ha)
      exact List.all_eq_true.mp h2 nv hnv
    have hben : ∀ n ∈ sortStrs ((attrs.map Prod.fst).filter (fun x => !(startsUnderscore x))),
        ∃ v, pyGetattr (.pobject attrs) n = .ok v ∧ isCallable v = false := by
      intro n hn
      exact pyGetattr_benign h1 (List.mem_of_mem_filter (mem_sortStrs.mp hn))
    obtain ⟨rd, hrd, hkeys⟩ :=
      potLoop_keys (sortStrs ((attrs.map Prod.fst).filter (fun x => !(startsUnderscore x))))
        (.pobject attrs) 0 [] (by omega) hben (by simpa using h3)
    refine ⟨rd, ?_, by simpa using hkeys⟩
    rw [processObjectTypes]
    simp only [serializable, dirNames, hdeny, Bool.false_eq_true, if_false, hrd]

/-- Witness for C4 at a concrete non-serializable input and at
recursion depth 2. -/
theorem process_object_types_contract_witness :
    (∃ r, processObjectTypes PyVal.pfunc 2 = .ok r ∧ serializable r = true)
    ∧ (serializable PyVal.pfunc = true → processObjectTypes PyVal.pfunc 2 = .ok PyVal.pfunc)
    ∧ (serializable PyVal.pfunc = false → 2 ≤ 2 →
        processObjectTypes PyVal.pfunc 2 = .ok (.pdict []))
    ∧ (∃ rd, processObjectTypes
        (.pobject [("Name", Sum.inr (PyVal.pstr "vm1")), ("_p", Sum.inr PyVal.pnone)]) 0 =
          .ok (.pdict rd) ∧
        rd.map Prod.fst =
          (sortStrs ((([("Name", Sum.inr (PyVal.pstr "vm1")),
              ("_p", Sum.inr PyVal.pnone)] : List (String × (PyExc ⊕ PyVal))).map
                Prod.fst).filter (fun x => !(startsUnderscore x)))).map strToLower) :=
  process_object_types_contract PyVal.pfunc 2 _ (by decide) (by decide) (by decide)

/-! ## Claim C3 -/

/-- C3 as stated is false: an attribute access that raises a
permission fault (an exception class outside `AttributeError` and
`IndexError`) propagates out of `_get_object_prop` instead of
producing a null result. -/
theorem get_object_prop_raises_nopermission :
    getObjectProp (.pobject [("config", Sum.inl PyExc.noPermission)]) ["config"] =
      .error PyExc.noPermission := rfl

/-- C3 amended: the Dotted-Path Property Getter never propagates an
`AttributeError` or `IndexError` from an attribute access (those are
converted to a null result) and flattening never raises, but an
attribute access that raises any other exception class (such as a
backend permission fault) propagates to the caller. -/
theorem get_object_prop_exception_classes (vm : PyVal) (attributes : List String) :
    (∃ r, getObjectProp vm attributes = .ok r) ∨
    (∃ e, getObjectProp vm attributes = .error e ∧
      e ≠ PyExc.attributeError ∧ e ≠ PyExc.indexError) := by
  unfold getObjectProp
  induction attributes generalizing vm with
  | nil => exact Or.inl ⟨vm, rfl⟩
  | cons a rest ih =>
    cases hg : pyGetattr vm a with
    | error e =>
      cases e with
      | attributeError => exact Or.inl ⟨.pnone, by simp [getObjectPropGo, hg]⟩
      | indexError => exact Or.inl ⟨.pnone, by simp [getObjectPropGo, hg]⟩
      | noPermission =>
        exact Or.inr ⟨.noPermission, by simp [getObjectPropGo, hg], by decide, by decide⟩
      | otherError =>
        exact Or.inr ⟨.otherError, by simp [getObjectPropGo, hg], by decide, by decide⟩
    | ok r =>
      obtain ⟨r2, hr2, -⟩ := pot_ok_ser r 0
      have hstep : getObjectPropGo vm (a :: rest) = getObjectPropGo r2 rest := by
        simp [getObjectPropGo, hg, hr2]
      rw [hstep]
      exact ih r2

/-! ## Claim C9 -/

/-- Flattening a bound method yields the empty mapping: `json.dumps`
fails, and its attribute enumeration holds no data attributes. -/
theorem pot_pfunc : processObjectTypes PyVal.pfunc 0 = .ok (.pdict []) := by
  simp [processObjectTypes, potLoop, serializable, dirNames, filterProps, sortStrs]

/-- Walking any non-empty attribute path from a flattened (dict)
intermediate ends in null or in the empty mapping: a dict method name
resolves to a bound method, which flattens to the empty mapping; any
other name raises `AttributeError`, which the getter converts to
null. -/
theorem dictGo_cases : ∀ (bs : List String) (rd : List (String × PyVal)), bs ≠ [] →
    getObjectPropGo (.pdict rd) bs = .ok PyVal.pnone
    ∨ getObjectPropGo (.pdict rd) bs = .ok (PyVal.pdict []) := by
  intro bs
  induction bs with
  | nil => intro rd h; exact absurd rfl h
  | cons b rest ih =>
    intro rd h
    by_cases hb : b ∈ dictMethodNames
    · have hstep : getObjectPropGo (.pdict rd) (b :: rest) =
          getObjectPropGo (.pdict []) rest := by
        simp [getObjectPropGo, pyGetattr, hb, pot_pfunc]
      rw [hstep]
      cases rest with
      | nil => exact Or.inr rfl
      | cons b2 r2 => exact ih [] (by simp)
    · left
      simp [getObjectPropGo, pyGetattr, hb]

/-- C9 as stated is false: a two-component path through a
non-serializable first component does not return null when the second
component is a dict method name.  The flattened intermediate is a plain
mapping, `getattr` on it succeeds for `"keys"` with a bound method, and
the getter returns that method's flattened form — the empty mapping —
instead of null. -/
theorem nested_path_dict_method_not_null :
    getObjectProp (.pobject [("config", Sum.inr (PyVal.pobject []))]) ["config", "keys"] =
      .ok (PyVal.pdict [])
    ∧ (Except.ok (PyVal.pdict []) : Except PyExc PyVal) ≠ .ok PyVal.pnone := by
  constructor
  · have hobj : processObjectTypes (PyVal.pobject []) 0 = .ok (.pdict []) := by
      simp [processObjectTypes, potLoop, serializable, dirNames, filterProps, sortStrs]
    unfold getObjectProp
    simp [getObjectPropGo, pyGetattr, assocFind, dictMethodNames, hobj, pot_pfunc]
  · simp

/-- C9 amended: for every dotted path with two or more components whose
first component resolves to a non-JSON-serializable object, the getter
returns null provided the second component is not one of the dict
method names the flattened mapping exposes; and in every case —
method name or not — the result is null or the empty mapping, so no
multi-component path through a non-serializable backend object ever
yields the nested value. -/
theorem nested_path_nonserializable_cases (vm v : PyVal) (a b : String)
    (rest : List String) (hg : pyGetattr vm a = .ok v) (hs : serializable v = false) :
    (b ∉ dictMethodNames → getObjectProp vm (a :: b :: rest) = .ok PyVal.pnone)
    ∧ (getObjectProp vm (a :: b :: rest) = .ok PyVal.pnone
       ∨ getObjectProp vm (a :: b :: rest) = .ok (PyVal.pdict [])) := by
  obtain ⟨rd, hrd, -⟩ := pot_nonser_dict v 0 hs
  have hstep : getObjectProp vm (a :: b :: rest) = getObjectPropGo (.pdict rd) (b :: rest) := by
    unfold getObjectProp
    simp [getObjectPropGo, hg, hrd]
  constructor
  · intro hb
    rw [hstep]
    simp [getObjectPropGo, pyGetattr, hb]
  · rw [hstep]
    exact dictGo_cases (b :: rest) rd (by simp)

/-- Witness for C9's amended claim: the two-component path `foo.bar`
(second component not a dict method name) through a non-serializable
backend object returns null. -/
theorem nested_path_nonserializable_cases_witness :
    pyGetattr (.pobject [("foo", Sum.inr (PyVal.pobject []))]) "foo" =
      .ok (PyVal.pobject [])
    ∧ serializable (PyVal.pobject []) = false
    ∧ getObjectProp (.pobject [("foo", Sum.inr (PyVal.pobject []))]) ["foo", "bar"] =
        .ok PyVal.pnone :=
  ⟨rfl, rfl,
   (nested_path_nonserializable_cases (.pobject [("foo", Sum.inr (PyVal.pobject []))])
     (PyVal.pobject []) "foo" "bar" [] rfl rfl).1 (by decide)⟩

/-! ## Concrete backends for evaluation -/

/-- A backend with no matching objects. -/
def beEmpty : Backend :=
  { datacenterList := fun _ => [], clusterList := fun _ => [],
    folderList := fun _ => [], hostList := fun _ => [],
    resourcePoolList := fun _ => [], vmList := fun _ => [] }

/-! ## Claim C1 -/

/-- C1 fails on the code: with one matching folder, one matching ESXi
host system and one matching resource pool configured, the host-system
block and then the resource-pool block assign `vm_filter_spec.folders`,
so the final spec carries the resource-pool reference in the folder
dimension, the folder category's reference `"group-f1"` is lost, and
the dedicated `hosts` and `resource_pools` dimensions are never set. -/
theorem filter_spec_overwrites_folders :
    getVMFilterSpec
      { folders := ["Folder1"], esxi_hostsystems := ["Host1"], resource_pools := ["RP1"] }
      { beEmpty with
        folderList := fun n => if n = "Folder1" then ["group-f1"] else [],
        hostList := fun n => if n = "Host1" then ["host-h1"] else [],
        resourcePoolList := fun n => if n = "RP1" then ["rp-r1"] else [] } =
    .ok ({ datacenters := none, clusters := none, folders := some ["rp-r1"],
           hosts := none, resource_pools := none }, []) := rfl

/-! ## Claim C2 -/

/-- C2 fails on the code: a VM whose `config.guestId` is absent is not
"processed successfully with no guest-OS group"; the unconditional
`cacheable_results[vm_guest_id]['hosts'].append(current_host)` indexes
the snapshot at a key the truthiness-guarded creation never made, and
the run aborts with a `KeyError`. -/
theorem guest_id_absent_keyerror :
    (populateLive {} []
      { beEmpty with
        vmList := fun _ => [{ moid := "vm-1", name := "web1", config := some { uuid := "u1" } }] }
      {}).2 = .error RunError.keyError := rfl

/-! ## Claim C10 -/

/-- C10: during property extraction with the special `customValue`
property, a custom field value whose key has no matching entry in the
field-definition lookup raises `IndexError` (indexing the first element
of the empty match list), and the whole live run fails with that error
instead of omitting the one variable. -/
theorem custom_value_missing_field_def_raises
    (field_mgr : List CustomFieldDef) (cv : CustomFieldValue)
    (host : String) (inv : Inventory)
    (hmiss : ∀ d ∈ field_mgr, d.key ≠ cv.key) :
    populateHostProperties ["customValue"] field_mgr
      { moid := "vm-3", name := "web3", config := some { uuid := "u3" }, customValue := [cv] }
      host inv = .error PyExc.indexError
    ∧ (populateLive { properties := ["customValue"] } field_mgr
        { beEmpty with
          vmList := fun _ =>
            [{ moid := "vm-3", name := "web3",
               config := some { uuid := "u3", guestId := some "g1" },
               customValue := [cv] }] }
        {}).2 = .error (RunError.py PyExc.indexError) := by
  have hfilter : field_mgr.filter (fun y => y.key == cv.key) = [] := by
    rw [List.filter_eq_nil_iff]
    intro d hd
    simpa using hmiss d hd
  have hA : ∀ (host2 : String) (inv2 : Inventory),
      populateHostProperties ["customValue"] field_mgr
        { moid := "vm-3", name := "web3",
          config := some { uuid := "u3", guestId := some "g1" },
          customValue := [cv] } host2 inv2 = .error PyExc.indexError := by
    intro host2 inv2
    simp [populateHostProperties, cvLoop, hfilter]
  refine ⟨?_, ?_⟩
  · simp [populateHostProperties, cvLoop, hfilter]
  · have hspec : getVMFilterSpec ({} : FilterConfig)
        { beEmpty with
          vmList := fun _ =>
            [{ moid := "vm-3", name := "web3",
               config := some { uuid := "u3", guestId := some "g1" },
               customValue := [cv] }] } = .ok ({}, []) := rfl
    simp [populateLive, hspec, vmLoop, processVM, processNewVM, hA]

/-- Witness for C10 at a concrete custom field value and an empty
field-definition lookup. -/
theorem custom_value_missing_field_def_raises_witness :
    populateHostProperties ["customValue"] []
      { moid := "vm-3", name := "web3", config := some { uuid := "u3" },
        customValue := [{ key := 5, value := PyVal.pstr "v" }] }
      "web3_u3" {} = .error PyExc.indexError
    ∧ (populateLive { properties := ["customValue"] } []
        { beEmpty with
          vmList := fun _ =>
            [{ moid := "vm-3", name := "web3",
               config := some { uuid := "u3", guestId := some "g1" },
               customValue := [{ key := 5, value := PyVal.pstr "v" }] }] }
        {}).2 = .error (RunError.py PyExc.indexError) :=
  custom_value_missing_field_def_raises [] { key := 5, value := PyVal.pstr "v" }
    "web3_u3" {} (by simp)

/-! ## Claim C5 -/

/-- C5 as stated is false: on a cache hit the replay does not return
the stored snapshot unchanged.  `source_data.pop('_meta', {})` removes
the reserved `_meta` entry in place, and the run's result is the
mutated snapshot, which no longer contains `_meta` and differs from the
snapshot that was read from the cache. -/
theorem cache_replay_drops_meta :
    (populateFromSource {} [] beEmpty {}
      [("_meta", SnapVal.meta [("h1", [])]), ("g1", SnapVal.group ["h1"])] true).2 =
      .ok [("g1", SnapVal.group ["h1"])]
    ∧ ([("g1", SnapVal.group ["h1"])] : Snapshot) ≠
        [("_meta", SnapVal.meta [("h1", [])]), ("g1", SnapVal.group ["h1"])]
    ∧ hasKeySnap [("g1", SnapVal.group ["h1"])] "_meta" = false
    ∧ hasKeySnap [("_meta", SnapVal.meta [("h1", [])]), ("g1", SnapVal.group ["h1"])] "_meta"
        = true := by
  refine ⟨rfl, ?_, rfl, rfl⟩
  intro h
  exact absurd (congrArg List.length h) (by decide)

/-- C5 amended: on a cache hit, the replay branch returns the stored
snapshot with its reserved `_meta` entry removed (the pop mutates the
snapshot in place); every snapshot entry other than `_meta` is
preserved unchanged. -/
theorem cache_replay_returns_popped_snapshot (opts : RunOptions)
    (field_mgr : List CustomFieldDef) (be : Backend) (inv : Inventory) (sd : Snapshot) :
    (populateFromSource opts field_mgr be inv sd true).2 = .ok (eraseKey "_meta" sd)
    ∧ ∀ k, k ≠ "_meta" → assocFind (eraseKey "_meta" sd) k = assocFind sd k := by
  constructor
  · simp [populateFromSource, populateFromCache]
  · intro k hk
    induction sd with
    | nil => rfl
    | cons kv rest ih =>
      obtain ⟨k0, v⟩ := kv
      by_cases h0 : k0 = "_meta"
      · subst h0
        have hne : ¬ ("_meta" = k) := fun he => hk he.symm
        simp [eraseKey, assocFind, hne]
      · by_cases hk0 : k0 = k
        · subst hk0
          simp [eraseKey, h0, assocFind]
        · simp [eraseKey, h0, assocFind, hk0, ih]

/-- Witness for C5's amended claim at a concrete snapshot. -/
theorem cache_replay_returns_popped_snapshot_witness :
    (populateFromSource {} [] beEmpty {}
      [("_meta", SnapVal.meta [("h1", [])]), ("g1", SnapVal.group ["h1"])] true).2 =
      .ok (eraseKey "_meta"
        [("_meta", SnapVal.meta [("h1", [])]), ("g1", SnapVal.group ["h1"])])
    ∧ assocFind (eraseKey "_meta"
        [("_meta", SnapVal.meta [("h1", [])]), ("g1", SnapVal.group ["h1"])]) "g1" =
      assocFind [("_meta", SnapVal.meta [("h1", [])]), ("g1", SnapVal.group ["h1"])] "g1" :=
  ⟨(cache_replay_returns_popped_snapshot {} [] beEmpty {}
      [("_meta", SnapVal.meta [("h1", [])]), ("g1", SnapVal.group ["h1"])]).1,
   (cache_replay_returns_popped_snapshot {} [] beEmpty {}
      [("_meta", SnapVal.meta [("h1", [])]), ("g1", SnapVal.group ["h1"])]).2 "g1"
     (by decide)⟩

/-! ## Inventory bookkeeping lemmas -/

theorem setVariable_hosts (inv : Inventory) (h k : String) (v : PyVal) :
    (setVariable inv h k v).hosts = inv.hosts := rfl

theorem addChild_hosts (inv : Inventory) (p c : String) :
    (addChild inv p c).hosts = inv.hosts := rfl

theorem addGroup_hosts (inv : Inventory) (g : String) :
    (addGroup inv g).hosts = inv.hosts := rfl

theorem mem_addUnique_self (x : String) (xs : List String) : x ∈ addUnique x xs := by
  unfold addUnique
  split
  · next hc => simpa using hc
  · exact List.mem_append_right _ (by simp)

theorem mem_addUnique_of_mem {x : String} (y : String) {xs : List String} (h : x ∈ xs) :
    x ∈ addUnique y xs := by
  unfold addUnique
  split
  · exact h
  · exact List.mem_append_left _ h

theorem cvLoop_hosts {fm : List CustomFieldDef} {ch : String} {cvs : List CustomFieldValue}
    {inv inv2 : Inventory} (h : cvLoop fm ch cvs inv = .ok inv2) : inv2.hosts = inv.hosts := by
  induction cvs generalizing inv with
  | nil =>
    simp [cvLoop] at h
    rw [← h]
  | cons cv rest ih =>
    rw [cvLoop] at h
    cases hf : fm.filter (fun y => y.key == cv.key) with
    | nil => simp [hf] at h
    | cons d ds =>
      rw [hf] at h
      exact (ih h).trans (setVariable_hosts _ _ _ _)

theorem populateHostProperties_hosts {ps : List String} {fm : List CustomFieldDef}
    {o : VMObj} {ch : String} {inv inv2 : Inventory}
    (h : populateHostProperties ps fm o ch inv = .ok inv2) : inv2.hosts = inv.hosts := by
  induction ps generalizing inv with
  | nil =>
    simp [populateHostProperties] at h
    rw [← h]
  | cons p rest ih =>
    rw [populateHostProperties] at h
    by_cases hp : p = "customValue"
    · rw [if_pos hp] at h
      cases hcv : cvLoop fm ch o.customValue inv with
      | error e => simp [hcv] at h
      | ok inv1 =>
        rw [hcv] at h
        exact (ih h).trans (cvLoop_hosts hcv)
    · rw [if_neg hp] at h
      cases hg : getObjectProp o.raw (p.splitOn ".") with
      | error e => simp [hg] at h
      | ok v =>
        rw [hg] at h
        exact (ih h).trans (setVariable_hosts _ _ _ _)

theorem tagLoop_hosts {ti : List (String × String)} {ch : String} {ts : List String}
    {inv inv2 : Inventory} {res res2 : Snapshot}
    (h : tagLoop ti ch ts inv res = .ok (inv2, res2)) : inv2.hosts = inv.hosts := by
  induction ts generalizing inv res with
  | nil =>
    simp [tagLoop] at h
    rw [← h.1]
  | cons t rest ih =>
    rw [tagLoop] at h
    cases hf : assocFind ti t with
    | none => simp [hf] at h
    | some tname =>
      simp only [hf] at h
      cases ha : appendHost res tname ch with
      | error e => simp [ha] at h
      | ok res1 =>
        simp only [ha] at h
        exact (ih h).trans (addChild_hosts _ _ _)

theorem tagStep_hosts {wt : Bool} {ti : List (String × String)} {ch : String}
    {ts : List String} {inv inv2 : Inventory} {res res2 : Snapshot}
    (h : (if wt then tagLoop ti ch ts inv res else .ok (inv, res)) = .ok (inv2, res2)) :
    inv2.hosts = inv.hosts := by
  by_cases hwt : wt = true
  · rw [if_pos hwt] at h
    exact tagLoop_hosts h
  · rw [if_neg hwt] at h
    simp at h
    rw [← h.1]

theorem powerBlock_hosts {vp ch : String} {inv inv2 : Inventory} {res res2 : Snapshot}
    (h : powerBlock vp ch inv res = .ok (inv2, res2)) : inv2.hosts = inv.hosts := by
  by_cases hk : hasKeySnap res vp = true
  · simp only [powerBlock, hk, if_true] at h
    cases ha : appendHost res vp ch with
    | error e => simp [ha] at h
    | ok r2 =>
      simp only [ha] at h
      simp at h
      rw [← h.1]
      exact addChild_hosts _ _ _
  · have hk2 : hasKeySnap res vp = false := by simpa using hk
    simp only [powerBlock, hk2, Bool.false_eq_true, if_false] at h
    cases ha : appendHost (insertGroupSnap res vp) vp ch with
    | error e => simp [ha] at h
    | ok r2 =>
      simp only [ha] at h
      simp at h
      rw [← h.1]
      exact (addChild_hosts _ _ _).trans (addGroup_hosts _ _)

theorem guestBlock_hosts {gid? : Option String} {ch : String} {inv inv2 : Inventory}
    {res res2 : Snapshot} (h : guestBlock gid? ch inv res = .ok (inv2, res2)) :
    inv2.hosts = inv.hosts := by
  cases gid? with
  | none => simp [guestBlock] at h
  | some gid =>
    by_cases hk : (gid ≠ "" && !(hasKeySnap res gid)) = true
    · simp only [guestBlock, hk, if_true] at h
      cases ha : appendHost (insertGroupSnap res gid) gid ch with
      | error e => simp [ha] at h
      | ok r2 =>
        simp only [ha] at h
        simp at h
        rw [← h.1]
        exact (addChild_hosts _ _ _).trans (addGroup_hosts _ _)
    · have hk2 : (gid ≠ "" && !(hasKeySnap res gid)) = false := by simpa using hk
      simp only [guestBlock, hk2, Bool.false_eq_true, if_false] at h
      cases ha : appendHost res gid ch with
      | error e => simp [ha] at h
      | ok r2 =>
        simp only [ha] at h
        simp at h
        rw [← h.1]
        exact addChild_hosts _ _ _

/-- The inventory fed to property population has the same hosts as
`addHost st.inv current_host`. -/
theorem ipStep_hosts (o : VMObj) (inv : Inventory) (ch : String) :
    (match o.ipAddress with
      | some host_ip =>
        if host_ip ≠ "" then setVariable inv ch "ansible_host" (.pstr host_ip) else inv
      | none => inv).hosts = inv.hosts := by
  cases o.ipAddress with
  | none => rfl
  | some ip =>
    by_cases hip : ip ≠ ""
    · simp [hip, setVariable_hosts]
    · simp [hip]

/-- When the guarded body runs, exactly the new key is appended to the
seen set, the host set only grows, and the new key is registered as a
host. -/
theorem processNewVM_spec {opts : RunOptions} {fm : List CustomFieldDef} {be : Backend}
    {ti : List (String × String)} {st : LoopState} {o : VMObj} {c : VMConfig}
    {st2 : LoopState} (h : processNewVM opts fm be ti st o c = .ok st2) :
    st2.seen = st.seen ++ [o.name ++ "_" ++ c.uuid]
    ∧ (∀ x ∈ st.inv.hosts, x ∈ st2.inv.hosts)
    ∧ (o.name ++ "_" ++ c.uuid) ∈ st2.inv.hosts := by
  rw [processNewVM] at h
  cases hp : populateHostProperties opts.properties fm o (o.name ++ "_" ++ c.uuid)
      (match o.ipAddress with
        | some host_ip =>
          if host_ip ≠ "" then
            setVariable (addHost st.inv (o.name ++ "_" ++ c.uuid))
              (o.name ++ "_" ++ c.uuid) "ansible_host" (.pstr host_ip)
          else addHost st.inv (o.name ++ "_" ++ c.uuid)
        | none => addHost st.inv (o.name ++ "_" ++ c.uuid)) with
  | error e => simp only [hp] at h; exact Except.noConfusion h
  | ok inv1 =>
    simp only [hp] at h
    cases htag : (if opts.with_tags then
        tagLoop ti (o.name ++ "_" ++ c.uuid) (be.attachedTags o.moid) inv1 st.results
      else .ok (inv1, st.results)) with
    | error e => simp only [htag] at h; exact Except.noConfusion h
    | ok p1 =>
      obtain ⟨inv2, results2⟩ := p1
      simp only [htag] at h
      cases hpow : powerBlock o.powerState (o.name ++ "_" ++ c.uuid) inv2 results2 with
      | error e => simp only [hpow] at h; exact Except.noConfusion h
      | ok p2 =>
        obtain ⟨inv3, results3⟩ := p2
        simp only [hpow] at h
        cases hgu : guestBlock c.guestId (o.name ++ "_" ++ c.uuid) inv3 results3 with
        | error e => simp only [hgu] at h; exact Except.noConfusion h
        | ok p3 =>
          obtain ⟨inv4, results4⟩ := p3
          simp only [hgu] at h
          have hst2 : st2 =
              { inv := inv4, results := results4,
                seen := st.seen ++ [o.name ++ "_" ++ c.uuid] } := by
            cases h
            rfl
          have hhosts : inv4.hosts = addUnique (o.name ++ "_" ++ c.uuid) st.inv.hosts := by
            rw [guestBlock_hosts hgu, powerBlock_hosts hpow, tagStep_hosts htag,
              populateHostProperties_hosts hp, ipStep_hosts]
            rfl
          subst hst2
          refine ⟨rfl, ?_, ?_⟩
          · intro x hx
            simpa [hhosts] using mem_addUnique_of_mem _ hx
          · simpa [hhosts] using mem_addUnique_self _ st.inv.hosts

/-- Case analysis for one loop iteration: either the state is returned
untouched (orphaned VM, or the host key was already seen), or exactly
the new key is appended to the seen set, the host set only grows, and
the new key is registered as a host. -/
theorem processVM_ok_cases {opts : RunOptions} {fm : List CustomFieldDef} {be : Backend}
    {ti : List (String × String)} {st : LoopState} {o : VMObj} {st2 : LoopState}
    (h : processVM opts fm be ti st o = .ok st2) :
    (st2 = st ∧ ∀ c, o.config = some c → (o.name ++ "_" ++ c.uuid) ∈ st.seen)
    ∨ ∃ c, o.config = some c
        ∧ st2.seen = st.seen ++ [o.name ++ "_" ++ c.uuid]
        ∧ (∀ x ∈ st.inv.hosts, x ∈ st2.inv.hosts)
        ∧ (o.name ++ "_" ++ c.uuid) ∈ st2.inv.hosts := by
  cases hc : o.config with
  | none =>
    left
    rw [processVM] at h
    simp only [hc] at h
    refine ⟨by cases h; rfl, by simp⟩
  | some c =>
    rw [processVM] at h
    simp only [hc] at h
    by_cases hseen : st.seen.contains (o.name ++ "_" ++ c.uuid) = true
    · left
      rw [if_pos hseen] at h
      refine ⟨by cases h; rfl, ?_⟩
      intro c2 hc2
      cases hc2
      simpa using hseen
    · right
      rw [if_neg hseen] at h
      exact ⟨c, rfl, processNewVM_spec h⟩

/-- One loop step preserves seen-set membership, and preserves the
invariant that every seen key is a registered host. -/
theorem processVM_seenHosts {opts : RunOptions} {fm : List CustomFieldDef} {be : Backend}
    {ti : List (String × String)} {st st2 : LoopState} {o : VMObj}
    (h : processVM opts fm be ti st o = .ok st2) :
    (∀ x ∈ st.seen, x ∈ st2.seen)
    ∧ ((∀ x ∈ st.seen, x ∈ st.inv.hosts) → ∀ x ∈ st2.seen, x ∈ st2.inv.hosts) := by
  rcases processVM_ok_cases h with ⟨heq, -⟩ | ⟨c, -, hseen, hmono, hkey⟩
  · subst heq
    exact ⟨fun x hx => hx, fun hs => hs⟩
  · constructor
    · intro x hx
      rw [hseen]
      exact List.mem_append_left _ hx
    · intro hs x hx
      rw [hseen] at hx
      rcases List.mem_append.mp hx with hx | hx
      · exact hmono x (hs x hx)
      · simp at hx
        subst hx
        exact hkey

/-- The loop preserves seen-set membership and the seen-keys-are-hosts
invariant, whether or not it aborts. -/
theorem vmLoop_inv {opts : RunOptions} {fm : List CustomFieldDef} {be : Backend}
    {ti : List (String × String)} :
    ∀ (os : List VMObj) (st stF : LoopState) (eF : Option RunError),
    vmLoop opts fm be ti os st = (stF, eF) →
    (∀ x ∈ st.seen, x ∈ stF.seen)
    ∧ ((∀ x ∈ st.seen, x ∈ st.inv.hosts) → ∀ x ∈ stF.seen, x ∈ stF.inv.hosts) := by
  intro os
  induction os with
  | nil =>
    intro st stF eF h
    simp [vmLoop] at h
    rw [← h.1]
    exact ⟨fun x hx => hx, fun hs => hs⟩
  | cons o os ih =>
    intro st stF eF h
    rw [vmLoop] at h
    cases hstep : processVM opts fm be ti st o with
    | error e =>
      simp only [hstep] at h
      have hst : st = stF := congrArg Prod.fst h
      rw [← hst]
      exact ⟨fun x hx => hx, fun hs => hs⟩
    | ok st2 =>
      simp only [hstep] at h
      have h1 := processVM_seenHosts hstep
      have h2 := ih st2 stF eF h
      exact ⟨fun x hx => h2.1 x (h1.1 x hx), fun hs => h2.2 (h1.2 hs)⟩

/-- In a completed pass, every non-orphaned VM's host key ends up in the
seen set. -/
theorem vmLoop_key {opts : RunOptions} {fm : List CustomFieldDef} {be : Backend}
    {ti : List (String × String)} :
    ∀ (os : List VMObj) (st stF : LoopState),
    vmLoop opts fm be ti os st = (stF, none) →
    ∀ o ∈ os, ∀ c, o.config = some c → (o.name ++ "_" ++ c.uuid) ∈ stF.seen := by
  intro os
  induction os with
  | nil =>
    intro st stF h o ho
    simp at ho
  | cons o1 os ih =>
    intro st stF h o ho c hc
    rw [vmLoop] at h
    cases hstep : processVM opts fm be ti st o1 with
    | error e =>
      simp only [hstep] at h
      exact absurd (congrArg Prod.snd h) (by simp)
    | ok st2 =>
      simp only [hstep] at h
      rcases List.mem_cons.mp ho with rfl | ho2
      · have hkey : (o.name ++ "_" ++ c.uuid) ∈ st2.seen := by
          rcases processVM_ok_cases hstep with ⟨heq, hin⟩ | ⟨c2, hc2, hseen, -, -⟩
          · subst heq
            exact hin c hc
          · rw [hc] at hc2
            cases hc2
            rw [hseen]
            simp
        exact (vmLoop_inv os st2 stF none h).1 _ hkey
      · exact ih st2 stF h o ho2 c hc

/-- Appending to a fixed string prefix is injective. -/
theorem strAppendCancelLeft : ∀ (s t u : String), s ++ t = s ++ u → t = u := by
  intro s t u h
  cases s with
  | mk a =>
    cases t with
    | mk b =>
      cases u with
      | mk c =>
        have h2 : a ++ b = a ++ c := congrArg String.data h
        have h3 := List.append_cancel_left h2
        rw [h3]

/-! ## Claim C6 -/

/-- C6: host keys are processed at most once per live run.  First
conjunct: for a VM whose host key (display name + `"_"` + unique id)
was already seen, the loop body is a no-op: the state (inventory,
snapshot and seen set) is returned entirely unchanged, so there is no
second host entry, no duplicate group membership and no variable
re-extraction.  Second conjunct: a completed pass over objects
containing two VMs with the same display name but different unique ids
registers two distinct host entries. -/
theorem host_key_at_most_once (opts : RunOptions) (field_mgr : List CustomFieldDef)
    (be : Backend) (tagsInfo : List (String × String)) :
    (∀ (st : LoopState) (o : VMObj) (c : VMConfig),
      o.config = some c →
      st.seen.contains (o.name ++ "_" ++ c.uuid) = true →
      processVM opts field_mgr be tagsInfo st o = .ok st)
    ∧ (∀ (objects : List VMObj) (st0 stF : LoopState) (vm1 vm2 : VMObj) (c1 c2 : VMConfig),
        vmLoop opts field_mgr be tagsInfo objects st0 = (stF, none) →
        vm1 ∈ objects → vm2 ∈ objects →
        vm1.config = some c1 → vm2.config = some c2 →
        vm1.name = vm2.name → c1.uuid ≠ c2.uuid →
        (∀ x ∈ st0.seen, x ∈ st0.inv.hosts) →
        (vm1.name ++ "_" ++ c1.uuid) ∈ stF.inv.hosts
        ∧ (vm2.name ++ "_" ++ c2.uuid) ∈ stF.inv.hosts
        ∧ (vm1.name ++ "_" ++ c1.uuid) ≠ (vm2.name ++ "_" ++ c2.uuid)) := by
  constructor
  · intro st o c hc hseen
    rw [processVM]
    simp only [hc]
    rw [if_pos hseen]
  · intro objects st0 stF vm1 vm2 c1 c2 hrun h1 h2 hc1 hc2 hname huuid hsh
    have hkey1 := vmLoop_key objects st0 stF hrun vm1 h1 c1 hc1
    have hkey2 := vmLoop_key objects st0 stF hrun vm2 h2 c2 hc2
    have hinv := (vmLoop_inv objects st0 stF none hrun).2 hsh
    refine ⟨hinv _ hkey1, hinv _ hkey2, ?_⟩
    intro heq
    rw [hname] at heq
    exact huuid (strAppendCancelLeft _ _ _ heq)

/-- Witness for C6: a second encounter of key `web1_u1` is a no-op, and
a pass over two VMs both named `web1` with uuids `u1` and `u2`
registers the two distinct hosts `web1_u1` and `web1_u2`. -/
theorem host_key_at_most_once_witness :
    processVM {} [] beEmpty []
      { inv := {}, results := [("_meta", SnapVal.meta [])], seen := ["web1_u1"] }
      { moid := "vm-1", name := "web1", config := some { uuid := "u1" } } =
      .ok { inv := {}, results := [("_meta", SnapVal.meta [])], seen := ["web1_u1"] }
    ∧ (("web1" ++ "_" ++ "u1") ∈ (vmLoop {} [] beEmpty []
          [{ moid := "vm-1", name := "web1", config := some { uuid := "u1", guestId := some "g1" } },
           { moid := "vm-2", name := "web1", config := some { uuid := "u2", guestId := some "g1" } }]
          { inv := {}, results := [("_meta", SnapVal.meta [])], seen := [] }).1.inv.hosts
        ∧ ("web1" ++ "_" ++ "u2") ∈ (vmLoop {} [] beEmpty []
            [{ moid := "vm-1", name := "web1", config := some { uuid := "u1", guestId := some "g1" } },
             { moid := "vm-2", name := "web1", config := some { uuid := "u2", guestId := some "g1" } }]
            { inv := {}, results := [("_meta", SnapVal.meta [])], seen := [] }).1.inv.hosts
        ∧ ("web1" ++ "_" ++ "u1") ≠ ("web1" ++ "_" ++ "u2")) :=
  ⟨(host_key_at_most_once {} [] beEmpty []).1
      { inv := {}, results := [("_meta", SnapVal.meta [])], seen := ["web1_u1"] }
      { moid := "vm-1", name := "web1", config := some { uuid := "u1" } }
      { uuid := "u1" } rfl (by decide),
   (host_key_at_most_once {} [] beEmpty []).2
      [{ moid := "vm-1", name := "web1", config := some { uuid := "u1", guestId := some "g1" } },
       { moid := "vm-2", name := "web1", config := some { uuid := "u2", guestId := some "g1" } }]
      { inv := {}, results := [("_meta", SnapVal.meta [])], seen := [] } _
      { moid := "vm-1", name := "web1", config := some { uuid := "u1", guestId := some "g1" } }
      { moid := "vm-2", name := "web1", config := some { uuid := "u2", guestId := some "g1" } }
      { uuid := "u1", guestId := some "g1" } { uuid := "u2", guestId := some "g1" } rfl
      (List.mem_cons_self _ _) (List.mem_cons_of_mem _ (List.mem_cons_self _ _))
      rfl rfl rfl (by decide) (by simp)⟩

/-! ## Filter-category lemmas -/

theorem procCat_silent (lookup : String → List String) (pre : String) :
    ∀ names : List String, processCategory lookup pre .silent names =
      .ok (names.filterMap (fun n => (lookup n).head?), []) := by
  intro names
  induction names with
  | nil => rfl
  | cons n rest ih =>
    rw [processCategory]
    cases hl : lookup n with
    | nil => simp [hl, handleError, ih]
    | cons r rs => simp [hl, ih]

theorem procCat_error_ok (lookup : String → List String) (pre : String) :
    ∀ names : List String, (∀ n ∈ names, lookup n ≠ []) →
    processCategory lookup pre .error names =
      .ok (names.filterMap (fun n => (lookup n).head?), []) := by
  intro names
  induction names with
  | nil => intro hall; rfl
  | cons n rest ih =>
    intro hall
    rw [processCategory]
    cases hl : lookup n with
    | nil => exact absurd hl (hall n (List.mem_cons_self _ _))
    | cons r rs => simp [hl, ih (fun m hm => hall m (List.mem_cons_of_mem _ hm))]

theorem procCat_error_miss (lookup : String → List String) (pre : String) :
    ∀ names : List String, (∃ n ∈ names, lookup n = []) →
    ∃ n, n ∈ names ∧ lookup n = [] ∧
      processCategory lookup pre .error names = .error (pre ++ " " ++ n) := by
  intro names
  induction names with
  | nil => intro h; simp at h
  | cons n rest ih =>
    intro h
    cases hl : lookup n with
    | nil =>
      refine ⟨n, List.mem_cons_self _ _, hl, ?_⟩
      rw [processCategory]
      simp [hl, handleError]
    | cons r rs =>
      have h2 : ∃ m ∈ rest, lookup m = [] := by
        rcases h with ⟨m, hm, hlm⟩
        rcases List.mem_cons.mp hm with rfl | hm2
        · rw [hl] at hlm
          cases hlm
        · exact ⟨m, hm2, hlm⟩
      obtain ⟨m, hm, hlm, heq⟩ := ih h2
      refine ⟨m, List.mem_cons_of_mem _ hm, hlm, ?_⟩
      rw [processCategory]
      simp [hl, heq]

theorem catStep_silent (names : List String) (lookup : String → List String) (pre : String) :
    catStep names lookup pre .silent =
      .ok ((if names.isEmpty then none
        else some (names.filterMap (fun n => (lookup n).head?))), []) := by
  unfold catStep
  by_cases hn : names.isEmpty
  · simp [hn]
  · simp [hn, procCat_silent]

theorem catStep_error_ok (names : List String) (lookup : String → List String) (pre : String)
    (hall : ∀ n ∈ names, lookup n ≠ []) :
    ∃ o, catStep names lookup pre .error = .ok (o, []) := by
  unfold catStep
  by_cases hn : names.isEmpty
  · exact ⟨none, by simp [hn]⟩
  · exact ⟨some (names.filterMap (fun n => (lookup n).head?)),
      by simp [hn, procCat_error_ok _ _ _ hall]⟩

theorem catStep_error_miss (names : List String) (lookup : String → List String) (pre : String)
    (hmiss : ∃ n ∈ names, lookup n = []) :
    ∃ n, n ∈ names ∧ lookup n = [] ∧
      catStep names lookup pre .error = .error (pre ++ " " ++ n) := by
  obtain ⟨n, hn, hln, heq⟩ := procCat_error_miss lookup pre names hmiss
  have hne : names.isEmpty = false := by
    cases names with
    | nil => simp at hn
    | cons a as => rfl
  exact ⟨n, hn, hln, by unfold catStep; simp [hne, heq]⟩

/-- Some configured name in some filter category has zero backend
matches. -/
def hasMiss (fc : FilterConfig) (be : Backend) : Prop :=
  (∃ n ∈ fc.datacenters, be.datacenterList n = []) ∨
  (∃ n ∈ fc.clusters, be.clusterList n = []) ∨
  (∃ n ∈ fc.folders, be.folderList n = []) ∨
  (∃ n ∈ fc.esxi_hostsystems, be.hostList n = []) ∨
  (∃ n ∈ fc.resource_pools, be.resourcePoolList n = [])

/-- `n` is a configured name of the category labelled `cat` with zero
backend matches. -/
def missAt (fc : FilterConfig) (be : Backend) (cat n : String) : Prop :=
  (cat = "datacenter" ∧ n ∈ fc.datacenters ∧ be.datacenterList n = []) ∨
  (cat = "cluster" ∧ n ∈ fc.clusters ∧ be.clusterList n = []) ∨
  (cat = "folder" ∧ n ∈ fc.folders ∧ be.folderList n = []) ∨
  (cat = "esxi hostsystem" ∧ n ∈ fc.esxi_hostsystems ∧ be.hostList n = []) ∨
  (cat = "resource pool" ∧ n ∈ fc.resource_pools ∧ be.resourcePoolList n = [])

/-! ## Claim C7 -/

/-- C7: unresolved-filter-name policy.  First conjunct: under the
`error` policy, any configured filter name with zero backend matches
makes the filter-spec construction abort with a fatal error naming the
category and name, and the live run returns that error with the
inventory exactly as it was handed in — no VM was enumerated.  Second
conjunct: under `silent` a category's collected reference set is
exactly the first-match references of the names that did resolve
(merely smaller, possibly empty), with no warning emitted.  Third
conjunct: under `silent` the whole filter-spec construction succeeds
with no diagnostics. -/
theorem unresolved_filter_policy :
    (∀ (cfg : FilterConfig) (be : Backend) (wt : Bool) (props : List String)
        (fm : List CustomFieldDef) (inv0 : Inventory),
      cfg.no_object_failure = .error → hasMiss cfg be →
      ∃ cat n, missAt cfg be cat n ∧
        getVMFilterSpec cfg be = .error ("Unable to find " ++ cat ++ " " ++ n) ∧
        populateLive { filt := cfg, with_tags := wt, properties := props } fm be inv0 =
          (inv0, .error (.ansible ("Unable to find " ++ cat ++ " " ++ n))))
    ∧ (∀ (lookup : String → List String) (pre : String) (names : List String),
        processCategory lookup pre .silent names =
          .ok (names.filterMap (fun n => (lookup n).head?), []))
    ∧ (∀ (cfg : FilterConfig) (be : Backend), cfg.no_object_failure = .silent →
        ∃ spec, getVMFilterSpec cfg be = .ok (spec, [])) := by
  refine ⟨?_, procCat_silent, ?_⟩
  · intro cfg be wt props fm inv0 hp hmiss
    by_cases h1 : ∃ n ∈ cfg.datacenters, be.datacenterList n = []
    · obtain ⟨n, hn, hln, heq⟩ := catStep_error_miss cfg.datacenters be.datacenterList
        "Unable to find datacenter" h1
      refine ⟨"datacenter", n, Or.inl ⟨rfl, hn, hln⟩, ?_, ?_⟩
      · simp only [getVMFilterSpec, hp, heq]
        rfl
      · simp only [populateLive, getVMFilterSpec, hp, heq]
        rfl
    · have hall1 : ∀ n ∈ cfg.datacenters, be.datacenterList n ≠ [] := by
        push_neg at h1
        exact h1
      obtain ⟨o1, ho1⟩ := catStep_error_ok cfg.datacenters be.datacenterList
        "Unable to find datacenter" hall1
      by_cases h2 : ∃ n ∈ cfg.clusters, be.clusterList n = []
      · obtain ⟨n, hn, hln, heq⟩ := catStep_error_miss cfg.clusters be.clusterList
          "Unable to find cluster" h2
        refine ⟨"cluster", n, Or.inr (Or.inl ⟨rfl, hn, hln⟩), ?_, ?_⟩
        · simp only [getVMFilterSpec, hp, ho1, heq]
          rfl
        · simp only [populateLive, getVMFilterSpec, hp, ho1, heq]
          rfl
      · have hall2 : ∀ n ∈ cfg.clusters, be.clusterList n ≠ [] := by
          push_neg at h2
          exact h2
        obtain ⟨o2, ho2⟩ := catStep_error_ok cfg.clusters be.clusterList
          "Unable to find cluster" hall2
        by_cases h3 : ∃ n ∈ cfg.folders, be.folderList n = []
        · obtain ⟨n, hn, hln, heq⟩ := catStep_error_miss cfg.folders be.folderList
            "Unable to find folder" h3
          refine ⟨"folder", n, Or.inr (Or.inr (Or.inl ⟨rfl, hn, hln⟩)), ?_, ?_⟩
          · simp only [getVMFilterSpec, hp, ho1, ho2, heq]
            rfl
          · simp only [populateLive, getVMFilterSpec, hp, ho1, ho2, heq]
            rfl
        · have hall3 : ∀ n ∈ cfg.folders, be.folderList n ≠ [] := by
            push_neg at h3
            exact h3
          obtain ⟨o3, ho3⟩ := catStep_error_ok cfg.folders be.folderList
            "Unable to find folder" hall3
          by_cases h4 : ∃ n ∈ cfg.esxi_hostsystems, be.hostList n = []
          · obtain ⟨n, hn, hln, heq⟩ := catStep_error_miss cfg.esxi_hostsystems be.hostList
              "Unable to find esxi hostsystem" h4
            refine ⟨"esxi hostsystem", n,
              Or.inr (Or.inr (Or.inr (Or.inl ⟨rfl, hn, hln⟩))), ?_, ?_⟩
            · simp only [getVMFilterSpec, hp, ho1, ho2, ho3, heq]
              rfl
            · simp only [populateLive, getVMFilterSpec, hp, ho1, ho2, ho3, heq]
              rfl
          · have hall4 : ∀ n ∈ cfg.esxi_hostsystems, be.hostList n ≠ [] := by
              push_neg at h4
              exact h4
            obtain ⟨o4, ho4⟩ := catStep_error_ok cfg.esxi_hostsystems be.hostList
              "Unable to find esxi hostsystem" hall4
            by_cases h5 : ∃ n ∈ cfg.resource_pools, be.resourcePoolList n = []
            · obtain ⟨n, hn, hln, heq⟩ := catStep_error_miss cfg.resource_pools
                be.resourcePoolList "Unable to find resource pool" h5
              refine ⟨"resource pool", n,
                Or.inr (Or.inr (Or.inr (Or.inr ⟨rfl, hn, hln⟩))), ?_, ?_⟩
              · simp only [getVMFilterSpec, hp, ho1, ho2, ho3, ho4, heq]
                rfl
              · simp only [populateLive, getVMFilterSpec, hp, ho1, ho2, ho3, ho4, heq]
                rfl
            · rcases hmiss with h | h | h | h | h
              · exact absurd h h1
              · exact absurd h h2
              · exact absurd h h3
              · exact absurd h h4
              · exact absurd h h5
  · intro cfg be hp
    simp only [getVMFilterSpec, hp, catStep_silent]
    exact ⟨_, rfl⟩

/-- Witness for C7: a missing datacenter aborts under `error` and is
silently dropped under `silent`. -/
theorem unresolved_filter_policy_witness :
    (∃ cat n,
      missAt { datacenters := ["dcMiss"], no_object_failure := .error } beEmpty cat n ∧
      getVMFilterSpec { datacenters := ["dcMiss"], no_object_failure := .error } beEmpty =
        .error ("Unable to find " ++ cat ++ " " ++ n) ∧
      populateLive
          { filt := { datacenters := ["dcMiss"], no_object_failure := .error },
            with_tags := false, properties := [] } [] beEmpty {} =
        ({}, .error (.ansible ("Unable to find " ++ cat ++ " " ++ n))))
    ∧ processCategory beEmpty.datacenterList "Unable to find datacenter" .silent ["dcMiss"] =
        .ok ((["dcMiss"].filterMap (fun n => (beEmpty.datacenterList n).head?)), [])
    ∧ (∃ spec, getVMFilterSpec { datacenters := ["dcMiss"] } beEmpty = .ok (spec, [])) :=
  ⟨unresolved_filter_policy.1 { datacenters := ["dcMiss"], no_object_failure := .error }
      beEmpty false [] [] {} rfl (Or.inl ⟨"dcMiss", List.mem_cons_self _ _, rfl⟩),
   unresolved_filter_policy.2.1 beEmpty.datacenterList "Unable to find datacenter" ["dcMiss"],
   unresolved_filter_policy.2.2 { datacenters := ["dcMiss"] } beEmpty rfl⟩

/-! ## Snapshot invariant lemmas -/

/-- Every member of every group entry of the snapshot belongs to `S`. -/
def snapMembersOk (S : List String) (results : Snapshot) : Prop :=
  ∀ g hs, (g, SnapVal.group hs) ∈ results → ∀ x ∈ hs, x ∈ S

theorem snapMembersOk_mono {S S' : List String} {res : Snapshot}
    (h : snapMembersOk S res) (hs : ∀ x ∈ S, x ∈ S') : snapMembersOk S' res :=
  fun g hs2 hmem x hx => hs _ (h g hs2 hmem x hx)

theorem snapMembersOk_tail {S : List String} {kv : String × SnapVal} {rest : Snapshot}
    (h : snapMembersOk S (kv :: rest)) : snapMembersOk S rest :=
  fun g hs hmem => h g hs (List.mem_cons_of_mem _ hmem)

theorem assocFind_append_left {α : Type} {l l2 : List (String × α)} {k : String} {v : α}
    (h : assocFind l k = some v) : assocFind (l ++ l2) k = some v := by
  induction l with
  | nil => simp [assocFind] at h
  | cons kv rest ih =>
    obtain ⟨k0, v0⟩ := kv
    rw [assocFind] at h
    rw [List.cons_append, assocFind]
    by_cases hk : k0 = k
    · rw [if_pos hk] at h ⊢
      exact h
    · rw [if_neg hk] at h ⊢
      exact ih h

theorem appendHost_membersOk {results results2 : Snapshot} {key host : String}
    {S : List String} (h : appendHost results key host = .ok results2)
    (hm : snapMembersOk S results) (hh : host ∈ S) : snapMembersOk S results2 := by
  induction results generalizing results2 with
  | nil => simp [appendHost] at h
  | cons kv rest ih =>
    obtain ⟨k, v⟩ := kv
    simp only [appendHost] at h
    by_cases hk : k = key
    · rw [if_pos hk] at h
      cases v with
      | meta hv => exact Except.noConfusion h
      | group hs =>
        injection h with h2
        subst h2
        intro g hs2 hmem x hx
        rcases List.mem_cons.mp hmem with heq | hmem2
        · injection heq with he1 he2
          injection he2 with he3
          subst he1
          subst he3
          rcases List.mem_append.mp hx with hx1 | hx2
          · exact hm g hs (List.mem_cons_self _ _) x hx1
          · simp at hx2
            subst hx2
            exact hh
        · exact hm g hs2 (List.mem_cons_of_mem _ hmem2) x hx
    · rw [if_neg hk] at h
      cases ha : appendHost rest key host with
      | error e => rw [ha] at h; exact Except.noConfusion h
      | ok rest2 =>
        rw [ha] at h
        injection h with h2
        subst h2
        intro g hs2 hmem x hx
        rcases List.mem_cons.mp hmem with heq | hmem2
        · exact hm g hs2 (heq ▸ List.mem_cons_self _ _) x hx
        · exact ih ha (snapMembersOk_tail hm) g hs2 hmem2 x hx

theorem appendHost_meta {results results2 : Snapshot} {key host : String}
    (h : appendHost results key host = .ok results2)
    (hm : assocFind results "_meta" = some (SnapVal.meta [])) :
    assocFind results2 "_meta" = some (SnapVal.meta []) := by
  induction results generalizing results2 with
  | nil => simp [appendHost] at h
  | cons kv rest ih =>
    obtain ⟨k, v⟩ := kv
    simp only [appendHost] at h
    rw [assocFind] at hm
    by_cases hk : k = key
    · rw [if_pos hk] at h
      cases v with
      | meta hv => exact Except.noConfusion h
      | group hs =>
        injection h with h2
        subst h2
        rw [assocFind]
        by_cases hmeta : k = "_meta"
        · rw [if_pos hmeta] at hm
          simp at hm
        · rw [if_neg hmeta] at hm ⊢
          exact hm
    · rw [if_neg hk] at h
      cases ha : appendHost rest key host with
      | error e => rw [ha] at h; exact Except.noConfusion h
      | ok rest2 =>
        rw [ha] at h
        injection h with h2
        subst h2
        rw [assocFind]
        by_cases hmeta : k = "_meta"
        · rw [if_pos hmeta] at hm ⊢
          exact hm
        · rw [if_neg hmeta] at hm ⊢
          exact ih ha hm

theorem insertGroup_membersOk {S : List String} {results : Snapshot} {g : String}
    (hm : snapMembersOk S results) : snapMembersOk S (insertGroupSnap results g) := by
  intro g2 hs hmem x hx
  rcases List.mem_append.mp hmem with h1 | h2
  · exact hm g2 hs h1 x hx
  · simp at h2
    rw [h2.2] at hx
    simp at hx

theorem insertGroup_meta {results : Snapshot} {g : String}
    (hm : assocFind results "_meta" = some (SnapVal.meta [])) :
    assocFind (insertGroupSnap results g) "_meta" = some (SnapVal.meta []) :=
  assocFind_append_left hm

theorem powerBlock_snap {vp ch : String} {inv inv2 : Inventory} {res res2 : Snapshot}
    {S : List String} (h : powerBlock vp ch inv res = .ok (inv2, res2))
    (hm : snapMembersOk S res) (hmi : assocFind res "_meta" = some (SnapVal.meta []))
    (hch : ch ∈ S) :
    snapMembersOk S res2 ∧ assocFind res2 "_meta" = some (SnapVal.meta []) := by
  by_cases hk : hasKeySnap res vp = true
  · simp only [powerBlock, hk, if_true] at h
    cases ha : appendHost res vp ch with
    | error e => rw [ha] at h; exact Except.noConfusion h
    | ok r3 =>
      rw [ha] at h
      injection h with h2
      injection h2 with h3 h4
      subst h4
      exact ⟨appendHost_membersOk ha hm hch, appendHost_meta ha hmi⟩
  · have hk2 : hasKeySnap res vp = false := by simpa using hk
    simp only [powerBlock, hk2, Bool.false_eq_true, if_false] at h
    cases ha : appendHost (insertGroupSnap res vp) vp ch with
    | error e => rw [ha] at h; exact Except.noConfusion h
    | ok r3 =>
      rw [ha] at h
      injection h with h2
      injection h2 with h3 h4
      subst h4
      exact ⟨appendHost_membersOk ha (insertGroup_membersOk hm) hch,
        appendHost_meta ha (insertGroup_meta hmi)⟩

theorem guestBlock_snap {gid? : Option String} {ch : String} {inv inv2 : Inventory}
    {res res2 : Snapshot} {S : List String}
    (h : guestBlock gid? ch inv res = .ok (inv2, res2))
    (hm : snapMembersOk S res) (hmi : assocFind res "_meta" = some (SnapVal.meta []))
    (hch : ch ∈ S) :
    snapMembersOk S res2 ∧ assocFind res2 "_meta" = some (SnapVal.meta []) := by
  cases gid? with
  | none => simp [guestBlock] at h
  | some gid =>
    by_cases hk : (gid ≠ "" && !(hasKeySnap res gid)) = true
    · simp only [guestBlock, hk, if_true] at h
      cases ha : appendHost (insertGroupSnap res gid) gid ch with
      | error e => rw [ha] at h; exact Except.noConfusion h
      | ok r3 =>
        rw [ha] at h
        injection h with h2
        injection h2 with h3 h4
        subst h4
        exact ⟨appendHost_membersOk ha (insertGroup_membersOk hm) hch,
          appendHost_meta ha (insertGroup_meta hmi)⟩
    · have hk2 : (gid ≠ "" && !(hasKeySnap res gid)) = false := by simpa using hk
      simp only [guestBlock, hk2, Bool.false_eq_true, if_false] at h
      cases ha : appendHost res gid ch with
      | error e => rw [ha] at h; exact Except.noConfusion h
      | ok r3 =>
        rw [ha] at h
        injection h with h2
        injection h2 with h3 h4
        subst h4
        exact ⟨appendHost_membersOk ha hm hch, appendHost_meta ha hmi⟩

theorem tagLoop_snap {ti : List (String × String)} {ch : String} {S : List String} :
    ∀ {ts : List String} {inv inv2 : Inventory} {res res2 : Snapshot},
    tagLoop ti ch ts inv res = .ok (inv2, res2) →
    snapMembersOk S res → assocFind res "_meta" = some (SnapVal.meta []) → ch ∈ S →
    snapMembersOk S res2 ∧ assocFind res2 "_meta" = some (SnapVal.meta []) := by
  intro ts
  induction ts with
  | nil =>
    intro inv inv2 res res2 h hm hmi hch
    simp [tagLoop] at h
    rw [← h.2]
    exact ⟨hm, hmi⟩
  | cons t rest ih =>
    intro inv inv2 res res2 h hm hmi hch
    rw [tagLoop] at h
    cases hf : assocFind ti t with
    | none => simp [hf] at h
    | some tname =>
      simp only [hf] at h
      cases ha : appendHost res tname ch with
      | error e => simp [ha] at h
      | ok res1 =>
        simp only [ha] at h
        exact ih h (appendHost_membersOk ha hm hch) (appendHost_meta ha hmi) hch

theorem tagStep_snap {wt : Bool} {ti : List (String × String)} {ch : String}
    {ts : List String} {inv inv2 : Inventory} {res res2 : Snapshot} {S : List String}
    (h : (if wt then tagLoop ti ch ts inv res else .ok (inv, res)) = .ok (inv2, res2))
    (hm : snapMembersOk S res) (hmi : assocFind res "_meta" = some (SnapVal.meta []))
    (hch : ch ∈ S) :
    snapMembersOk S res2 ∧ assocFind res2 "_meta" = some (SnapVal.meta []) := by
  by_cases hwt : wt = true
  · rw [if_pos hwt] at h
    exact tagLoop_snap h hm hmi hch
  · rw [if_neg hwt] at h
    injection h with h2
    injection h2 with h3 h4
    subst h4
    exact ⟨hm, hmi⟩

theorem processNewVM_snap {opts : RunOptions} {fm : List CustomFieldDef} {be : Backend}
    {ti : List (String × String)} {st : LoopState} {o : VMObj} {c : VMConfig}
    {st2 : LoopState} (h : processNewVM opts fm be ti st o c = .ok st2)
    (hm : snapMembersOk (st.seen ++ [o.name ++ "_" ++ c.uuid]) st.results)
    (hmi : assocFind st.results "_meta" = some (SnapVal.meta [])) :
    snapMembersOk st2.seen st2.results
    ∧ assocFind st2.results "_meta" = some (SnapVal.meta []) := by
  have hch : (o.name ++ "_" ++ c.uuid) ∈ st.seen ++ [o.name ++ "_" ++ c.uuid] := by simp
  rw [processNewVM] at h
  cases hp : populateHostProperties opts.properties fm o (o.name ++ "_" ++ c.uuid)
      (match o.ipAddress with
        | some host_ip =>
          if host_ip ≠ "" then
            setVariable (addHost st.inv (o.name ++ "_" ++ c.uuid))
              (o.name ++ "_" ++ c.uuid) "ansible_host" (.pstr host_ip)
          else addHost st.inv (o.name ++ "_" ++ c.uuid)
        | none => addHost st.inv (o.name ++ "_" ++ c.uuid)) with
  | error e => simp only [hp] at h; exact Except.noConfusion h
  | ok inv1 =>
    simp only [hp] at h
    cases htag : (if opts.with_tags then
        tagLoop ti (o.name ++ "_" ++ c.uuid) (be.attachedTags o.moid) inv1 st.results
      else .ok (inv1, st.results)) with
    | error e => simp only [htag] at h; exact Except.noConfusion h
    | ok p1 =>
      obtain ⟨inv2, results2⟩ := p1
      simp only [htag] at h
      have h1 := tagStep_snap htag hm hmi hch
      cases hpow : powerBlock o.powerState (o.name ++ "_" ++ c.uuid) inv2 results2 with
      | error e => simp only [hpow] at h; exact Except.noConfusion h
      | ok p2 =>
        obtain ⟨inv3, results3⟩ := p2
        simp only [hpow] at h
        have h2 := powerBlock_snap hpow h1.1 h1.2 hch
        cases hgu : guestBlock c.guestId (o.name ++ "_" ++ c.uuid) inv3 results3 with
        | error e => simp only [hgu] at h; exact Except.noConfusion h
        | ok p3 =>
          obtain ⟨inv4, results4⟩ := p3
          simp only [hgu] at h
          have h3 := guestBlock_snap hgu h2.1 h2.2 hch
          have hst2 : st2 =
              { inv := inv4, results := results4,
                seen := st.seen ++ [o.name ++ "_" ++ c.uuid] } := by
            cases h
            rfl
          subst hst2
          exact h3

theorem processVM_snap {opts : RunOptions} {fm : List CustomFieldDef} {be : Backend}
    {ti : List (String × String)} {st st2 : LoopState} {o : VMObj}
    (h : processVM opts fm be ti st o = .ok st2)
    (hm : snapMembersOk st.seen st.results)
    (hmi : assocFind st.results "_meta" = some (SnapVal.meta []))
    (hnd : st.seen.Nodup) :
    snapMembersOk st2.seen st2.results
    ∧ assocFind st2.results "_meta" = some (SnapVal.meta [])
    ∧ st2.seen.Nodup := by
  cases hc : o.config with
  | none =>
    rw [processVM] at h
    simp only [hc] at h
    injection h with h2
    subst h2
    exact ⟨hm, hmi, hnd⟩
  | some c =>
    rw [processVM] at h
    simp only [hc] at h
    by_cases hseen : st.seen.contains (o.name ++ "_" ++ c.uuid) = true
    · rw [if_pos hseen] at h
      injection h with h2
      subst h2
      exact ⟨hm, hmi, hnd⟩
    · rw [if_neg hseen] at h
      have hspec := processNewVM_spec h
      have hsnap := processNewVM_snap h
        (snapMembersOk_mono hm (fun x hx => List.mem_append_left _ hx)) hmi
      refine ⟨hsnap.1, hsnap.2, ?_⟩
      rw [hspec.1]
      have hnotin : (o.name ++ "_" ++ c.uuid) ∉ st.seen := by
        intro hmem
        exact hseen (by simpa using hmem)
      simp [List.nodup_append, hnd, hnotin]

theorem vmLoop_snap {opts : RunOptions} {fm : List CustomFieldDef} {be : Backend}
    {ti : List (String × String)} :
    ∀ (os : List VMObj) (st stF : LoopState),
    vmLoop opts fm be ti os st = (stF, none) →
    snapMembersOk st.seen st.results →
    assocFind st.results "_meta" = some (SnapVal.meta []) →
    st.seen.Nodup →
    snapMembersOk stF.seen stF.results
    ∧ assocFind stF.results "_meta" = some (SnapVal.meta [])
    ∧ stF.seen.Nodup := by
  intro os
  induction os with
  | nil =>
    intro st stF h hm hmi hnd
    simp [vmLoop] at h
    subst h
    exact ⟨hm, hmi, hnd⟩
  | cons o os ih =>
    intro st stF h hm hmi hnd
    rw [vmLoop] at h
    cases hstep : processVM opts fm be ti st o with
    | error e =>
      simp only [hstep] at h
      exact absurd (congrArg Prod.snd h) (by simp)
    | ok st2 =>
      simp only [hstep] at h
      have h1 := processVM_snap hstep hm hmi hnd
      exact ih st2 stF h h1.1 h1.2.1 h1.2.2

theorem preTags_snap {S : List String} (tg : String → TagObj) :
    ∀ (ts : List String) (results : Snapshot) (inv : Inventory)
      (ti : List (String × String)),
    snapMembersOk S results →
    assocFind results "_meta" = some (SnapVal.meta []) →
    snapMembersOk S (preTags tg ts results inv ti).1
    ∧ assocFind (preTags tg ts results inv ti).1 "_meta" = some (SnapVal.meta []) := by
  intro ts
  induction ts with
  | nil =>
    intro results inv ti hm hmi
    exact ⟨hm, hmi⟩
  | cons t rest ih =>
    intro results inv ti hm hmi
    rw [preTags]
    by_cases hk : hasKeySnap results (tg t).name = true
    · simp only [hk, if_true]
      exact ih results inv _ hm hmi
    · have hk2 : hasKeySnap results (tg t).name = false := by simpa using hk
      simp only [hk2, Bool.false_eq_true, if_false]
      exact ih _ _ _ (insertGroup_membersOk hm) (insertGroup_meta hmi)

theorem metaSetVar_spec :
    ∀ {results : Snapshot} {host : String} {hvars : List (String × PyVal)}
      {results2 : Snapshot} {hv : List (String × List (String × PyVal))},
    metaSetVar results host hvars = .ok results2 →
    assocFind results "_meta" = some (SnapVal.meta hv) →
    assocFind results2 "_meta" = some (SnapVal.meta (assocSet host hvars hv))
    ∧ ∀ g hs, ((g, SnapVal.group hs) ∈ results2 ↔ (g, SnapVal.group hs) ∈ results) := by
  intro results
  induction results with
  | nil =>
    intro host hvars results2 hv h hm
    simp [metaSetVar] at h
  | cons kv rest ih =>
    intro host hvars results2 hv h hm
    obtain ⟨k, v⟩ := kv
    simp only [metaSetVar] at h
    rw [assocFind] at hm
    by_cases hk : k = "_meta"
    · rw [if_pos hk] at h hm
      cases v with
      | group hs => exact Except.noConfusion h
      | meta hv2 =>
        injection h with h2
        subst h2
        injection hm with hm2
        injection hm2 with hm3
        subst hm3
        constructor
        · rw [assocFind, if_pos hk]
        · intro g hs
          simp
    · rw [if_neg hk] at h hm
      cases ha : metaSetVar rest host hvars with
      | error e => rw [ha] at h; exact Except.noConfusion h
      | ok rest2 =>
        rw [ha] at h
        injection h with h2
        subst h2
        have hrec := ih ha hm
        constructor
        · rw [assocFind, if_neg hk]
          exact hrec.1
        · intro g hs
          simp only [List.mem_cons]
          rw [hrec.2 g hs]

theorem metaFill_spec :
    ∀ (entries : List (String × List (String × PyVal))) {results results2 : Snapshot}
      {hv : List (String × List (String × PyVal))},
    metaFill results entries = .ok results2 →
    assocFind results "_meta" = some (SnapVal.meta hv) →
    assocFind results2 "_meta" =
      some (SnapVal.meta (entries.foldl (fun acc e => assocSet e.1 e.2 acc) hv))
    ∧ ∀ g hs, ((g, SnapVal.group hs) ∈ results2 ↔ (g, SnapVal.group hs) ∈ results) := by
  intro entries
  induction entries with
  | nil =>
    intro results results2 hv h hm
    simp [metaFill] at h
    subst h
    exact ⟨by simpa using hm, fun g hs => Iff.rfl⟩
  | cons e rest ih =>
    intro results results2 hv h hm
    obtain ⟨host, hvars⟩ := e
    rw [metaFill] at h
    cases hs1 : metaSetVar results host hvars with
    | error er => rw [hs1] at h; exact Except.noConfusion h
    | ok r1 =>
      rw [hs1] at h
      have m1 := metaSetVar_spec hs1 hm
      have m2 := ih h m1.1
      refine ⟨by simpa using m2.1, ?_⟩
      intro g hs
      exact (m2.2 g hs).trans (m1.2 g hs)

theorem foldl_assocSet_keys :
    ∀ (entries : List (String × List (String × PyVal)))
      (acc : List (String × List (String × PyVal))),
    (acc.map Prod.fst ++ entries.map Prod.fst).Nodup →
    (entries.foldl (fun a e => assocSet e.1 e.2 a) acc).map Prod.fst =
      acc.map Prod.fst ++ entries.map Prod.fst := by
  intro entries
  induction entries with
  | nil =>
    intro acc h
    simp
  | cons e rest ih =>
    intro acc h
    obtain ⟨k, v⟩ := e
    have hnot : k ∉ acc.map Prod.fst := by
      rw [List.nodup_append] at h
      intro hmem
      exact h.2.2 hmem (by simp)
    rw [List.foldl_cons]
    simp only [assocSet_not_mem v hnot]
    have hih := ih (acc ++ [(k, v)]) (by simpa using h)
    rw [hih]
    simp

/-- The host keys that have an entry under the snapshot's
`_meta`/`hostvars` mapping. -/
def metaHostvarsKeys (snap : Snapshot) : List String :=
  match assocFind snap "_meta" with
  | some (SnapVal.meta hv) => hv.map Prod.fst
  | _ => []

theorem metaHostvarsKeys_meta {snap : Snapshot}
    {hv : List (String × List (String × PyVal))}
    (h : assocFind snap "_meta" = some (SnapVal.meta hv)) :
    metaHostvarsKeys snap = hv.map Prod.fst := by
  rw [metaHostvarsKeys, h]

/-! ## Claim C8 -/

/-- C8: the snapshot produced by every completed live-enumeration run
satisfies the invariant that every host key appearing in any group's
member list (tag, power-state, or guest-OS group) has a corresponding
entry under the snapshot's `_meta`/`hostvars` mapping. -/
theorem group_members_have_hostvars (opts : RunOptions) (fm : List CustomFieldDef)
    (be : Backend) (inv0 inv : Inventory) (snap : Snapshot)
    (h : populateLive opts fm be inv0 = (inv, .ok snap)) :
    ∀ g hs, (g, SnapVal.group hs) ∈ snap → ∀ x ∈ hs, x ∈ metaHostvarsKeys snap := by
  simp only [populateLive] at h
  cases hgv : getVMFilterSpec opts.filt be with
  | error m =>
    simp only [hgv] at h
    exact absurd (congrArg Prod.snd h) (by simp)
  | ok p =>
    obtain ⟨spec, ws⟩ := p
    simp only [hgv] at h
    rcases hpre : (if opts.with_tags then
        preTags be.tagGet be.tagIds [("_meta", SnapVal.meta [])] inv0 []
      else ([("_meta", SnapVal.meta [])], inv0, [])) with ⟨results1, inv1, tagsInfo⟩
    simp only [hpre] at h
    have hbase1 : snapMembersOk ([] : List String) [("_meta", SnapVal.meta [])] := by
      intro g hs hmem
      simp at hmem
    have hbase2 : assocFind [("_meta", SnapVal.meta [])] "_meta" =
        some (SnapVal.meta []) := rfl
    have hinv1 : snapMembersOk ([] : List String) results1
        ∧ assocFind results1 "_meta" = some (SnapVal.meta []) := by
      by_cases hwt : opts.with_tags = true
      · rw [if_pos hwt] at hpre
        have hpt := preTags_snap (S := []) be.tagGet be.tagIds
          [("_meta", SnapVal.meta [])] inv0 [] hbase1 hbase2
        rw [hpre] at hpt
        exact hpt
      · rw [if_neg hwt] at hpre
        injection hpre with hp1 hp2
        subst hp1
        exact ⟨hbase1, hbase2⟩
    rcases hloop : vmLoop opts fm be tagsInfo (be.vmList spec)
        { inv := inv1, results := results1, seen := [] } with ⟨st, eF⟩
    simp only [hloop] at h
    cases eF with
    | some e => exact absurd (congrArg Prod.snd h) (by simp)
    | none =>
      cases hmf : metaFill st.results (st.seen.map (fun x => (x, varsOf st.inv x))) with
      | error e =>
        simp only [hmf] at h
        exact absurd (congrArg Prod.snd h) (by simp)
      | ok results2 =>
        simp only [hmf] at h
        have hsnap : results2 = snap := by
          have := congrArg Prod.snd h
          simpa using this
        subst hsnap
        have hInv := vmLoop_snap (be.vmList spec)
          { inv := inv1, results := results1, seen := [] } st hloop
          hinv1.1 hinv1.2 (by simp)
        have hMF := metaFill_spec (st.seen.map (fun x => (x, varsOf st.inv x))) hmf hInv.2.1
        intro g hs hmem x hx
        have hx2 : x ∈ st.seen := hInv.1 g hs ((hMF.2 g hs).mp hmem) x hx
        have hproj : (st.seen.map (fun x => (x, varsOf st.inv x))).map Prod.fst = st.seen := by
          simp [Function.comp_def]
        have hndmap : ((([] : List (String × List (String × PyVal))).map Prod.fst) ++
            ((st.seen.map (fun x => (x, varsOf st.inv x))).map Prod.fst)).Nodup := by
          simpa [hproj] using hInv.2.2
        have hkeys := foldl_assocSet_keys (st.seen.map (fun x => (x, varsOf st.inv x))) [] hndmap
        rw [metaHostvarsKeys_meta hMF.1, hkeys]
        simpa [hproj] using hx2

/-- Witness for C8: a concrete run over one VM yields a snapshot whose
only group members all have `_meta`/`hostvars` entries. -/
theorem group_members_have_hostvars_witness :
    populateLive {} []
      { beEmpty with
        vmList := fun _ =>
          [{ moid := "vm-1", name := "web1",
             config := some { uuid := "u1", guestId := some "otherLinux64Guest" },
             ipAddress := some "10.0.0.5" }] }
      {} =
      ((populateLive {} []
        { beEmpty with
          vmList := fun _ =>
            [{ moid := "vm-1", name := "web1",
               config := some { uuid := "u1", guestId := some "otherLinux64Guest" },
               ipAddress := some "10.0.0.5" }] }
        {}).1,
       .ok [("_meta", SnapVal.meta [("web1_u1", [("ansible_host", PyVal.pstr "10.0.0.5")])]),
            ("poweredOn", SnapVal.group ["web1_u1"]),
            ("otherLinux64Guest", SnapVal.group ["web1_u1"])])
    ∧ (∀ g hs,
        (g, SnapVal.group hs) ∈
          [("_meta", SnapVal.meta [("web1_u1", [("ansible_host", PyVal.pstr "10.0.0.5")])]),
           ("poweredOn", SnapVal.group ["web1_u1"]),
           ("otherLinux64Guest", SnapVal.group ["web1_u1"])] →
        ∀ x ∈ hs, x ∈ metaHostvarsKeys
          [("_meta", SnapVal.meta [("web1_u1", [("ansible_host", PyVal.pstr "10.0.0.5")])]),
           ("poweredOn", SnapVal.group ["web1_u1"]),
           ("otherLinux64Guest", SnapVal.group ["web1_u1"])]) :=
  ⟨rfl,
   group_members_have_hostvars {} []
     { beEmpty with
       vmList := fun _ =>
         [{ moid := "vm-1", name := "web1",
            config := some { uuid := "u1", guestId := some "otherLinux64Guest" },
            ipAddress := some "10.0.0.5" }] }
     {} _ _ rfl⟩

end VMwareInv
